import Mathlib

/-!
# Verification of the HelloCSV validation/transformation engine

A shallow embedding of the importer core: the validation engine
(full and incremental validation with its merge), the transformer
pipeline, the importer state machine pieces relevant to validation
orchestration, and the debounced dispatch logic.

Conventions of the embedding:
* JavaScript records (rows) are association lists from column id to a
  `CellValue`; a key that is present with value `undefined` is
  distinguished from an absent key, as in the source.
* Asynchronous validator evaluation that may reject is modelled with
  `Except Unit`: `.error ()` is a rejected promise, `.ok (some msg)` a
  failure message, `.ok none` a passing validator.  `Promise.all`
  corresponds to `List.mapM`, which fails when any element fails.
* Helpers of the repository that are not part of the provided sources
  (`hasData`, `isEmptyCell`, validator/transformer construction, the
  reference-column scan, the reducer's validation cases, persistence)
  are modelled from the specification; each such definition carries a
  doc comment starting with `Modelled from the spec:`.
-/

namespace HelloCSV

/-- Scalar output value of a cell (`ImporterOutputFieldType`:
string, number, boolean or undefined). -/
inductive CellValue where
  | str (s : String)
  | num (n : Int)
  | boolean (b : Bool)
  | undef
deriving DecidableEq, Repr

/-- A row: a record from column id to scalar value.  A pair whose value
is `.undef` models a key that is present but set to `undefined`. -/
abbrev SheetRow := List (String × CellValue)

/-- `columnId in row` of JavaScript: key presence. -/
def rowHas (row : SheetRow) (key : String) : Bool :=
  row.any (fun p => p.1 == key)

/-- `row[columnId]` of JavaScript: the stored value, `undefined` when
the key is absent. -/
def rowGet (row : SheetRow) (key : String) : CellValue :=
  match row.find? (fun p => p.1 == key) with
  | some p => p.2
  | none => CellValue.undef

/-- `row[columnId] = v` of JavaScript: update the key in place, or add
it at the end when absent. -/
def rowSet (row : SheetRow) (key : String) (v : CellValue) : SheetRow :=
  if row.any (fun p => p.1 == key) then
    row.map (fun p => if p.1 == key then (key, v) else p)
  else
    row ++ [(key, v)]

/-- Modelled from the spec: `isEmptyCell` (src/utils, not included in
the provided sources) — a cell is empty when it is undefined or the
empty string. -/
def isEmptyCell : CellValue → Bool
  | CellValue.undef => true
  | CellValue.str s => s.isEmpty
  | _ => false

/-- Modelled from the spec: `hasData` (src/utils/functional, not
included in the provided sources) — a row has data when at least one of
its cells is non-empty. -/
def hasData (row : SheetRow) : Bool :=
  row.any (fun p => !isEmptyCell p.2)

/-- Validator definitions (`ImporterValidatorDefinition`): a tagged
record selecting a validator kind plus kind-specific parameters.  The
`required` kind carries its optional conditional-applicability
predicate `when`; the `custom` kind carries an arbitrary user-supplied
evaluation (the open escape hatch of the registry). -/
inductive ValidatorDefinition where
  | required (whenCond : Option (CellValue → SheetRow → Bool))
  | includes (values : List CellValue)
  | custom (eval : CellValue → SheetRow → Except Unit (Option String))

/-- `v.validate === 'required'`. -/
def ValidatorDefinition.isRequiredKind : ValidatorDefinition → Bool
  | ValidatorDefinition.required _ => true
  | _ => false

/-- The `when` field read off a definition
(`(isRequired as RequiredValidatorDefinition).when`). -/
def ValidatorDefinition.whenCond :
    ValidatorDefinition → Option (CellValue → SheetRow → Bool)
  | ValidatorDefinition.required w => w
  | _ => none

/-- Runtime validator: evaluation over (cell value, full row) returning
no message (valid) or a failure message; evaluation may reject. -/
structure Validator where
  isValid : CellValue → SheetRow → Except Unit (Option String)

/-- Modelled from the spec: `buildValidatorFromDefinition`
(src/validators/validator_definitions, not included in the provided
sources).  A `required` validator fails on an empty cell, guarded by
its conditional predicate when one is present; an `includes` validator
fails when the value is not in its allowed set; `custom` runs the
user-supplied evaluation. -/
def buildValidatorFromDefinition : ValidatorDefinition → Validator
  | ValidatorDefinition.required whenCond =>
    { isValid := fun value row =>
        Except.ok
          (match whenCond with
           | some cond =>
             if cond value row then
               (if isEmptyCell value then some "required" else none)
             else none
           | none =>
             if isEmptyCell value then some "required" else none) }
  | ValidatorDefinition.includes values =>
    { isValid := fun value _ =>
        Except.ok (if values.contains value then none else some "includes") }
  | ValidatorDefinition.custom eval =>
    { isValid := eval }

/-- One enumeration entry of an `enum` column: a value with its label. -/
structure EnumValue where
  value : CellValue
  label : String

/-- Modelled from the spec: transformer definitions
(src/transformers/transformer_definitions, not included in the
provided sources) build into pure, synchronous, total value
transforms; the definition carries the transform itself. -/
abbrev TransformerDefinition := CellValue → CellValue

/-- Runtime transformer: maps one value to one value. -/
structure Transformer where
  transform : CellValue → CellValue

/-- Modelled from the spec: `buildTransformerFromDefinition`
(src/transformers/transformer_definitions, not included in the
provided sources). -/
def buildTransformerFromDefinition (d : TransformerDefinition) : Transformer :=
  { transform := d }

/-- Declared column type with its type-specific arguments.  A
`reference` column names the column whose present values across all
sheets form its allowed set. -/
inductive ColumnType where
  | text
  | number
  | boolean
  | enum (values : List EnumValue)
  | reference (referencedColumnId : String)

/-- `SheetColumnDefinition`. -/
structure SheetColumnDefinition where
  id : String
  type : ColumnType
  validators : Option (List ValidatorDefinition) := none
  transformers : Option (List TransformerDefinition) := none

/-- `SheetDefinition`. -/
structure SheetDefinition where
  id : String
  columns : List SheetColumnDefinition

/-- `SheetState`: sheetId plus the ordered rows. -/
structure SheetState where
  sheetId : String
  rows : List SheetRow
deriving DecidableEq

/-- `ImporterValidationError`. -/
structure ImporterValidationError where
  sheetId : String
  columnId : String
  rowIndex : Nat
  message : String
deriving DecidableEq, Repr

/-- `Map<string, Set<number>>` of dirty rows, as an association list of
per-sheet index sets. -/
abbrev DirtyRows := List (String × List Nat)

/-- `fieldIsRequired(columnDefinition, { skipConditionCheck })`
(src/unnamed/part_000 lines 12-28). -/
def fieldIsRequired (columnDefinition : SheetColumnDefinition)
    (skipConditionCheck : Bool) : Bool :=
  match columnDefinition.validators with
  | some validators =>
    if validators.length > 0 then
      match validators.find? (fun v => v.isRequiredKind) with
      | some isRequired =>
        if skipConditionCheck then true else isRequired.whenCond.isNone
      | none => false
    else false
  | none => false

/-- Modelled from the spec: `extractReferenceColumnPossibleValues`
(src/sheet/utils, not included in the provided sources) — the distinct
present (non-empty) values of the referenced column across all
sheets, recomputed from the data passed at call time. -/
def extractReferenceColumnPossibleValues
    (columnDefinition : SheetColumnDefinition)
    (allData : List SheetState) : List CellValue :=
  match columnDefinition.type with
  | ColumnType.reference referencedColumnId =>
    ((allData.flatMap (fun s => s.rows)).filterMap
      (fun row =>
        match row.find? (fun p => p.1 == referencedColumnId) with
        | some p => if isEmptyCell p.2 then none else some p.2
        | none => none)).dedup
  | _ => []

/-- `automaticFieldValidators` (src/unnamed/part_000 lines 30-56). -/
def automaticFieldValidators (columnDefinition : SheetColumnDefinition)
    (allData : List SheetState) : List ValidatorDefinition :=
  (match columnDefinition.type with
   | ColumnType.enum values =>
     [ValidatorDefinition.includes (values.map (fun v => v.value))]
   | _ => []) ++
  (match columnDefinition.type with
   | ColumnType.reference _ =>
     [ValidatorDefinition.includes
       (extractReferenceColumnPossibleValues columnDefinition allData)]
   | _ => [])

/-- The effective validator definitions of a column: explicit
definitions followed by the automatic ones
(`[...(columnDefinition.validators ?? []), ...automaticFieldValidators(...)]`). -/
def effectiveValidatorDefinitions (columnDefinition : SheetColumnDefinition)
    (allData : List SheetState) : List ValidatorDefinition :=
  columnDefinition.validators.getD [] ++
    automaticFieldValidators columnDefinition allData

/-- The `validatorsByColumnId` record built with `eachWithObject`: for
each column (in order) the entry at its id is overwritten with that
column's built validators; ids without an entry read back empty. -/
def validatorsByColumnId (sheetDefinition : SheetDefinition)
    (allData : List SheetState) : String → List Validator :=
  sheetDefinition.columns.foldl
    (fun obj columnDefinition => fun key =>
      if key == columnDefinition.id then
        (effectiveValidatorDefinitions columnDefinition allData).map
          buildValidatorFromDefinition
      else obj key)
    (fun _ => [])

/-- Run all validators of one cell against (value, row), collecting one
error per validator returning a message; any rejecting validator makes
the whole collection reject (`Promise.all`). -/
def cellErrors (sheetId columnId : String) (rowIndex : Nat)
    (validators : List Validator) (value : CellValue) (row : SheetRow) :
    Except Unit (List ImporterValidationError) := do
  let results ← validators.mapM (fun v => v.isValid value row)
  pure (results.filterMap (fun r =>
    r.map (fun message =>
      { sheetId := sheetId, columnId := columnId,
        rowIndex := rowIndex, message := message })))

/-- The body shared by `validateSheet` and `validateSpecificRows` for
one (column, row) pair: skip rows without data, skip a column that is
absent from the row and not required (ignoring conditional
predicates), otherwise run every validator of the column. -/
def rowColumnErrors (sheetId : String)
    (validatorMap : String → List Validator)
    (columnDefinition : SheetColumnDefinition)
    (rowIndex : Nat) (row : SheetRow) :
    Except Unit (List ImporterValidationError) :=
  if !hasData row then
    Except.ok []
  else if !rowHas row columnDefinition.id &&
      !fieldIsRequired columnDefinition true then
    Except.ok []
  else
    cellErrors sheetId columnDefinition.id rowIndex
      (validatorMap columnDefinition.id)
      (rowGet row columnDefinition.id) row

/-- `validateSheet` (src/unnamed/part_000 lines 58-120): every column
against every row, errors joined in iteration order. -/
def validateSheet (sheetDefinition : SheetDefinition)
    (sheetData : SheetState) (allData : List SheetState) :
    Except Unit (List ImporterValidationError) := do
  let validatorMap := validatorsByColumnId sheetDefinition allData
  let perColumn ← sheetDefinition.columns.mapM (fun columnDefinition => do
    let perRow ← sheetData.rows.enum.mapM (fun p =>
      rowColumnErrors sheetDefinition.id validatorMap columnDefinition p.1 p.2)
    pure perRow.flatten)
  pure perColumn.flatten

/-- `applyValidations` (src/unnamed/part_000 lines 122-159). -/
def applyValidations (sheetDefinitions : List SheetDefinition)
    (sheetStates : List SheetState) :
    Except Unit (List ImporterValidationError) := do
  let allErrors ← sheetDefinitions.mapM (fun sheetDefinition =>
    match sheetStates.find? (fun state => state.sheetId == sheetDefinition.id) with
    | some sheetData => validateSheet sheetDefinition sheetData sheetStates
    | none => Except.ok [])
  pure allErrors.flatten

/-- `validateSpecificRows` (src/unnamed/part_000 lines 161-229): like
`validateSheet`, restricted to rows whose index is in the dirty set. -/
def validateSpecificRows (sheetDefinition : SheetDefinition)
    (sheetData : SheetState) (allData : List SheetState)
    (rowIndices : List Nat) :
    Except Unit (List ImporterValidationError) := do
  let validatorMap := validatorsByColumnId sheetDefinition allData
  let perColumn ← sheetDefinition.columns.mapM (fun columnDefinition => do
    let perRow ← sheetData.rows.enum.mapM (fun p =>
      if rowIndices.contains p.1 then
        rowColumnErrors sheetDefinition.id validatorMap columnDefinition p.1 p.2
      else Except.ok [])
    pure perRow.flatten)
  pure perColumn.flatten

/-- The per-sheet incremental passes of `applyValidationsToSpecificRows`
(src/unnamed/part_000 lines 246-267): a sheet is revalidated when its
state is present and its dirty set is non-empty. -/
def incrementalSheetErrors (sheetDefinitions : List SheetDefinition)
    (sheetStates : List SheetState) (dirtyRows : DirtyRows) :
    Except Unit (List (List ImporterValidationError)) :=
  sheetDefinitions.mapM (fun sheetDefinition =>
    match sheetStates.find? (fun state => state.sheetId == sheetDefinition.id),
        dirtyRows.lookup sheetDefinition.id with
    | some sheetData, some dirtyRowIndices =>
      if dirtyRowIndices.length > 0 then
        validateSpecificRows sheetDefinition sheetData sheetStates dirtyRowIndices
      else Except.ok []
    | _, _ => Except.ok [])

/-- The string key `` `${sheetId}-${rowIndex}` `` used by the merge. -/
def errKey (sheetId : String) (rowIndex : Nat) : String :=
  sheetId ++ "-" ++ Nat.repr rowIndex

/-- The `dirtyRowKeys` set: one string key per dirty (sheet, row). -/
def dirtyRowKeys (dirtyRows : DirtyRows) : List String :=
  dirtyRows.flatMap (fun p => p.2.map (fun rowIndex => errKey p.1 rowIndex))

/-- `applyValidationsToSpecificRows` (src/unnamed/part_000 lines
231-290): revalidate the dirty rows, drop existing errors keyed in the
dirty map, append the fresh errors. -/
def applyValidationsToSpecificRows (sheetDefinitions : List SheetDefinition)
    (sheetStates : List SheetState)
    (existingErrors : List ImporterValidationError)
    (dirtyRows : DirtyRows) :
    Except Unit (List ImporterValidationError) := do
  let newErrors ← incrementalSheetErrors sheetDefinitions sheetStates dirtyRows
  let filteredExistingErrors := existingErrors.filter (fun error =>
    !(dirtyRowKeys dirtyRows).contains (errKey error.sheetId error.rowIndex))
  pure (filteredExistingErrors ++ newErrors.flatten)

/-- `Pipeline` (src/transformers/index.ts lines 158-177): an ordered
sequence of transform steps composed left-to-right. -/
structure Pipeline where
  steps : List Transformer

/-- `Pipeline.transform`: fold the steps over the value, first step
first. -/
def Pipeline.transform (p : Pipeline) (value : CellValue) : CellValue :=
  p.steps.foldl (fun current step => step.transform current) value

/-- `buildPipelineByColumnId` (src/transformers/index.ts lines 12-27):
one pipeline per column, built from its transformer definitions; a
column appearing later overwrites an earlier entry with the same id. -/
def buildPipelineByColumnId (sheetDefinition : SheetDefinition) :
    String → Pipeline :=
  sheetDefinition.columns.foldl
    (fun obj columnDefinition => fun key =>
      if key == columnDefinition.id then
        { steps := (columnDefinition.transformers.getD []).map
            buildTransformerFromDefinition }
      else obj key)
    (fun _ => { steps := [] })

/-- The body of `transformRow`'s per-column loop: rewrite the evolving
copy's cell by the column's pipeline when the cell is non-empty. -/
def transformColumnStep (pipelineByColumnId : String → Pipeline)
    (transformedRow : SheetRow)
    (columnDefinition : SheetColumnDefinition) : SheetRow :=
  let cellValue := rowGet transformedRow columnDefinition.id
  if !isEmptyCell cellValue then
    rowSet transformedRow columnDefinition.id
      ((pipelineByColumnId columnDefinition.id).transform cellValue)
  else transformedRow

/-- `transformRow` (src/transformers/index.ts lines 29-51): rows
without data are returned untouched; otherwise each column's non-empty
cell is rewritten by that column's pipeline, reading the evolving
copy. -/
def transformRow (row : SheetRow) (pipelineByColumnId : String → Pipeline)
    (sheetDefinition : SheetDefinition) : SheetRow :=
  if !hasData row then row
  else
    sheetDefinition.columns.foldl (transformColumnStep pipelineByColumnId) row

/-- `applyTransformationsToSingleRow` (src/transformers/index.ts lines
112-156). -/
def applyTransformationsToSingleRow (sheetDefinitions : List SheetDefinition)
    (sheetStates : List SheetState) (targetSheetId : String)
    (targetRowIndex : Nat) : List SheetState :=
  sheetStates.map (fun sheetState =>
    if !(sheetState.sheetId == targetSheetId) then sheetState
    else
      match sheetDefinitions.find? (fun d => d.id == targetSheetId) with
      | none => sheetState
      | some sheetDefinition =>
        let pipelineByColumnId := buildPipelineByColumnId sheetDefinition
        match sheetState.rows.get? targetRowIndex with
        | some targetRow =>
          { sheetState with
              rows := sheetState.rows.set targetRowIndex
                (transformRow targetRow pipelineByColumnId sheetDefinition) }
        | none => { sheetState with rows := sheetState.rows })

/-- `ImporterMode`. -/
inductive ImporterMode where
  | upload
  | mapping
  | preview
  | submit
  | completed
  | failed
deriving DecidableEq, Repr

/-- `ImporterState` (src/unnamed/part_001 lines 89-115), restricted to
the fields the validation core reads and writes; the fields owned by
the external parsing and mapping collaborators (`parsedFile`,
`rowFile`, `columnMappings`, `importStatistics`) are omitted. -/
structure ImporterState where
  sheetDefinitions : List SheetDefinition
  currentSheetId : String
  mode : ImporterMode
  validationErrors : List ImporterValidationError
  sheetData : List SheetState
  importProgress : Nat
  validationInProgress : Bool := false
  validationRunId : Option String := none
  dirtyRows : Option DirtyRows := none

/-- `ImporterAction` (src/unnamed/part_001 lines 135-173).  Payloads
owned by external collaborators (parsed files, column mappings) are
not carried: no claim depends on them. -/
inductive ImporterAction where
  | enterDataManually (amountOfEmptyRowsToAdd : Nat)
  | fileParsed
  | upload
  | columnMappingChanged
  | dataMapped (mappedData : List SheetState)
  | cellChanged (sheetId : String) (rowIndex : Nat) (value : SheetRow)
  | removeRows (sheetId : String) (rows : List SheetRow)
  | addEmptyRow
  | sheetChanged (sheetId : String)
  | submit
  | progress (importProgress : Nat)
  | completed
  | failed
  | preview
  | mapping
  | reset
  | setState (state : ImporterState)
  | validationStarted (runId : String)
  | validationCompleted (errors : List ImporterValidationError) (runId : String)

/-- Modelled from the spec: the reducer (src/importer/reducer, not
included in the provided sources).  Its two validation cases follow
the action table — VALIDATION_STARTED sets the in-progress flag and
records the runId; VALIDATION_COMPLETED applies its errors and clears
the flag only when its runId equals the stored one, and otherwise
leaves the state unchanged.  All other actions are delegated to the
supplied `other` function, standing for the remaining reducer cases. -/
def reducer (other : ImporterState → ImporterAction → ImporterState)
    (state : ImporterState) (action : ImporterAction) : ImporterState :=
  match action with
  | ImporterAction.validationStarted runId =>
    { state with validationInProgress := true, validationRunId := some runId }
  | ImporterAction.validationCompleted errors runId =>
    if state.validationRunId == some runId then
      { state with validationErrors := errors, validationInProgress := false }
    else state
  | _ => other state action

/-- `buildInitialState` (src/src/importer/state.tsx lines 36-51); it
reads the first definition's id, so it is only defined for a non-empty
definition list. -/
def buildInitialState (sheetDefinitions : List SheetDefinition)
    (h : sheetDefinitions ≠ []) : ImporterState :=
  { sheetDefinitions := sheetDefinitions
    currentSheetId := (sheetDefinitions.head h).id
    mode := ImporterMode.upload
    validationErrors := []
    validationInProgress := false
    sheetData := sheetDefinitions.map (fun sheet =>
      { sheetId := sheet.id, rows := [] })
    importProgress := 0 }

/-- `buildState` (src/src/importer/state.tsx lines 22-34).  The
persistence collaborator is external: its outcome is passed in as
`loadResult` (`.error ()` models a rejected load, `.ok none` an absent
snapshot, in which case `buildStateWithIndexedDB` builds and saves the
initial state). -/
def buildState (sheetDefinitions : List SheetDefinition)
    (h : sheetDefinitions ≠ []) (persistenceEnabled : Bool)
    (loadResult : Except Unit (Option ImporterState)) : ImporterState :=
  if !persistenceEnabled then buildInitialState sheetDefinitions h
  else
    match loadResult with
    | Except.ok (some state) => state
    | Except.ok none => buildInitialState sheetDefinitions h
    | Except.error _ => buildInitialState sheetDefinitions h

/-- `StateBuilder.getState` (src/src/importer/state.tsx lines 88-113):
fold the pending actions through the reducer, then validate —
incrementally when a dirty-row map with some non-empty set exists,
fully otherwise — falling back to the folded state's existing errors
when the chosen run rejects.  The reducer is passed in whole, since
its non-validation cases are not part of the provided sources. -/
def getState (red : ImporterState → ImporterAction → ImporterState)
    (sheets : List SheetDefinition) (initialState : ImporterState)
    (buildSteps : List ImporterAction) : ImporterState :=
  let state := buildSteps.foldl red initialState
  let hasDirtyRows :=
    match state.dirtyRows with
    | some dirty => dirty.any (fun p => !p.2.isEmpty)
    | none => false
  let validationErrors :=
    if hasDirtyRows then
      match applyValidationsToSpecificRows sheets state.sheetData
          state.validationErrors (state.dirtyRows.getD []) with
      | Except.ok errs => errs
      | Except.error _ => state.validationErrors
    else
      match applyValidations sheets state.sheetData with
      | Except.ok errs => errs
      | Except.error _ => state.validationErrors
  { state with validationErrors := validationErrors }

/-- The fixed action subset that mandates revalidation
(`InnerStateBuilder.actionTypesThatRequireValidation`). -/
def requiresValidation : ImporterAction → Bool
  | ImporterAction.dataMapped _ => true
  | ImporterAction.cellChanged _ _ _ => true
  | ImporterAction.removeRows _ _ => true
  | _ => false

/-- Validation lifecycle actions; the interactive builder itself emits
these, they never sit in its pending queue. -/
def isValidationAction : ImporterAction → Bool
  | ImporterAction.validationStarted _ => true
  | ImporterAction.validationCompleted _ _ => true
  | _ => false

/-- One `dispatchChange` call (src/src/importer/state.tsx lines
231-258): the sequence of actions it dispatches — VALIDATION_STARTED
with the fresh runId first when any pending action mandates
validation, then every pending action in order. -/
def dispatchChangeTrace (steps : List ImporterAction) (runId : String) :
    List ImporterAction :=
  if steps.any requiresValidation then
    ImporterAction.validationStarted runId :: steps
  else steps

/-- The debounce-timer handle after one `dispatchChange` call: when
validation is mandated the previous timer is cancelled and replaced by
a fresh one carrying this call's runId; otherwise the handle is left
alone. -/
def dispatchChangeTimer (steps : List ImporterAction) (runId : String)
    (timer : Option String) : Option String :=
  if steps.any requiresValidation then some runId else timer

/-- One queued `dispatchChange` call: the pending actions it flushes
and the runId generated for it. -/
structure DispatchCall where
  steps : List ImporterAction
  runId : String

/-- All actions dispatched synchronously by a burst of `dispatchChange`
calls inside one debounce window. -/
def sessionTrace (calls : List DispatchCall) : List ImporterAction :=
  calls.flatMap (fun c => dispatchChangeTrace c.steps c.runId)

/-- The timer handle surviving a burst of `dispatchChange` calls. -/
def sessionTimer (calls : List DispatchCall) (timer : Option String) :
    Option String :=
  calls.foldl (fun t c => dispatchChangeTimer c.steps c.runId t) timer

/-- When the debounce window elapses the surviving timer (if any) runs
`runValidation`, which dispatches one VALIDATION_COMPLETED carrying
the errors computed for the captured runId. -/
def fireTrace (computeErrors : String → List ImporterValidationError)
    (timer : Option String) : List ImporterAction :=
  match timer with
  | some runId => [ImporterAction.validationCompleted (computeErrors runId) runId]
  | none => []

/-- The complete action trace of a debounce window: the synchronous
dispatches of every call, then the single debounced completion. -/
def windowTrace (calls : List DispatchCall)
    (computeErrors : String → List ImporterValidationError) :
    List ImporterAction :=
  sessionTrace calls ++ fireTrace computeErrors (sessionTimer calls none)

/-! ## Generic lemmas about `Except`-valued traversal -/

theorem exceptMapM_congr {α β : Type} {l : List α}
    {f g : α → Except Unit β} (h : ∀ a ∈ l, f a = g a) :
    l.mapM f = l.mapM g := by
  induction l with
  | nil => rfl
  | cons a l ih =>
    rw [List.mapM_cons, List.mapM_cons, h a (by simp),
      ih (fun b hb => h b (by simp [hb]))]

theorem exceptBind_ok {α β : Type} {m : Except Unit α}
    {f : α → Except Unit β} {b : β} :
    (m >>= f) = Except.ok b ↔ ∃ a, m = Except.ok a ∧ f a = Except.ok b := by
  cases m <;> simp [Bind.bind, Except.bind]

theorem exceptMapM_ok_mem {α β : Type} {l : List α} {out : List β}
    {f : α → Except Unit β} (h : l.mapM f = Except.ok out) (b : β) :
    b ∈ out ↔ ∃ a ∈ l, f a = Except.ok b := by
  induction l generalizing out with
  | nil =>
    rw [List.mapM_nil] at h
    have : out = [] := by simpa [pure, Except.pure] using h.symm
    simp [this]
  | cons a l ih =>
    rw [List.mapM_cons] at h
    rcases exceptBind_ok.1 h with ⟨x, hfa, h2⟩
    rcases exceptBind_ok.1 h2 with ⟨xs, hml, h3⟩
    have hout : out = x :: xs := by
      simpa [pure, Except.pure] using h3.symm
    subst hout
    simp only [List.mem_cons, ih hml]
    constructor
    · rintro (rfl | ⟨a', ha', hfa'⟩)
      · exact ⟨a, by simp, hfa⟩
      · exact ⟨a', by simp [ha'], hfa'⟩
    · rintro ⟨a', rfl | ha', hfa'⟩
      · rw [hfa] at hfa'
        exact Or.inl (Except.ok.inj hfa').symm
      · exact Or.inr ⟨a', ha', hfa'⟩

/-! ## Injectivity of the `` `${sheetId}-${rowIndex}` `` merge key -/

theorem digitChar_ne_dash (m : Nat) : Nat.digitChar m ≠ '-' := by
  match m with
  | 0 | 1 | 2 | 3 | 4 | 5 | 6 | 7 | 8 | 9
  | 10 | 11 | 12 | 13 | 14 | 15 => decide
  | n + 16 =>
    unfold Nat.digitChar
    repeat rw [if_neg (by omega)]
    decide

theorem digitChar_inj_lt {m k : Nat} (hm : m < 10) (hk : k < 10)
    (h : Nat.digitChar m = Nat.digitChar k) : m = k := by
  interval_cases m <;> interval_cases k <;> revert h <;> decide

theorem toDigitsCore_append (b : Nat) :
    ∀ (fuel n : Nat) (acc : List Char),
      Nat.toDigitsCore b fuel n acc = Nat.toDigitsCore b fuel n [] ++ acc := by
  intro fuel
  induction fuel with
  | zero => intro n acc; simp [Nat.toDigitsCore]
  | succ f ih =>
    intro n acc
    simp only [Nat.toDigitsCore]
    by_cases h : n / b = 0
    · simp [h]
    · simp only [if_neg h]
      rw [ih (n / b) (Nat.digitChar (n % b) :: acc),
        ih (n / b) [Nat.digitChar (n % b)]]
      simp

theorem toDigitsCore_fuel :
    ∀ (n f1 f2 : Nat), n < f1 → n < f2 → ∀ acc : List Char,
      Nat.toDigitsCore 10 f1 n acc = Nat.toDigitsCore 10 f2 n acc := by
  intro n
  induction n using Nat.strong_induction_on with
  | _ n ih =>
    intro f1 f2 h1 h2 acc
    cases f1 with
    | zero => omega
    | succ g1 =>
      cases f2 with
      | zero => omega
      | succ g2 =>
        simp only [Nat.toDigitsCore]
        by_cases h : n / 10 = 0
        · simp [h]
        · simp only [if_neg h]
          have hn : 0 < n := by
            rcases Nat.eq_zero_or_pos n with rfl | hp
            · simp at h
            · exact hp
          have hv : n / 10 < n := Nat.div_lt_self hn (by norm_num)
          exact ih (n / 10) hv g1 g2 (by omega) (by omega) _

theorem toDigits_ten_eq (n : Nat) :
    Nat.toDigits 10 n =
      if n < 10 then [Nat.digitChar n]
      else Nat.toDigits 10 (n / 10) ++ [Nat.digitChar (n % 10)] := by
  conv_lhs => rw [Nat.toDigits]; simp only [Nat.toDigitsCore]
  by_cases h : n / 10 = 0
  · have hn : n < 10 := (Nat.div_eq_zero_iff (by norm_num)).1 h
    simp [h, hn, Nat.mod_eq_of_lt hn]
  · have hn : ¬ n < 10 := fun hlt => h ((Nat.div_eq_zero_iff (by norm_num)).2 hlt)
    have hpos : 0 < n := by omega
    have hv : n / 10 < n := Nat.div_lt_self hpos (by norm_num)
    rw [if_neg h, if_neg hn]
    rw [toDigitsCore_append 10 n (n / 10) [Nat.digitChar (n % 10)],
      toDigitsCore_fuel (n / 10) n (n / 10 + 1) hv (by omega)]
    rfl

theorem toDigits_ten_ne_nil (n : Nat) : Nat.toDigits 10 n ≠ [] := by
  rw [toDigits_ten_eq]
  split <;> simp

theorem mem_toDigits_ten :
    ∀ (n : Nat), ∀ c ∈ Nat.toDigits 10 n, ∃ m, m < 10 ∧ c = Nat.digitChar m := by
  intro n
  induction n using Nat.strong_induction_on with
  | _ n ih =>
    intro c hc
    rw [toDigits_ten_eq] at hc
    by_cases h : n < 10
    · rw [if_pos h] at hc
      simp at hc
      exact ⟨n, h, hc⟩
    · rw [if_neg h] at hc
      rcases List.mem_append.1 hc with hc | hc
      · have hpos : 0 < n := by omega
        exact ih (n / 10) (Nat.div_lt_self hpos (by norm_num)) c hc
      · simp at hc
        exact ⟨n % 10, Nat.mod_lt _ (by norm_num), hc⟩

theorem toDigits_ten_inj :
    ∀ (n m : Nat), Nat.toDigits 10 n = Nat.toDigits 10 m → n = m := by
  intro n
  induction n using Nat.strong_induction_on with
  | _ n ih =>
    intro m h
    rw [toDigits_ten_eq n, toDigits_ten_eq m] at h
    by_cases hn : n < 10 <;> by_cases hm : m < 10
    · rw [if_pos hn, if_pos hm] at h
      simp at h
      exact digitChar_inj_lt hn hm h
    · exfalso
      rw [if_pos hn, if_neg hm] at h
      have hlen := congrArg List.length h
      simp only [List.length_cons, List.length_append, List.length_nil] at hlen
      have : (Nat.toDigits 10 (m / 10)).length = 0 := by omega
      exact toDigits_ten_ne_nil (m / 10) (List.length_eq_zero.1 this)
    · exfalso
      rw [if_neg hn, if_pos hm] at h
      have hlen := congrArg List.length h
      simp only [List.length_cons, List.length_append, List.length_nil] at hlen
      have : (Nat.toDigits 10 (n / 10)).length = 0 := by omega
      exact toDigits_ten_ne_nil (n / 10) (List.length_eq_zero.1 this)
    · rw [if_neg hn, if_neg hm] at h
      have hparts := List.append_inj' h (by simp)
      have hdiv : n / 10 = m / 10 := by
        have hpos : 0 < n := by omega
        exact ih (n / 10) (Nat.div_lt_self hpos (by norm_num)) (m / 10) hparts.1
      have hmod : n % 10 = m % 10 := by
        have := hparts.2
        simp at this
        exact digitChar_inj_lt (Nat.mod_lt _ (by norm_num))
          (Nat.mod_lt _ (by norm_num)) this
      omega

theorem natRepr_inj {n m : Nat} (h : Nat.repr n = Nat.repr m) : n = m := by
  apply toDigits_ten_inj
  have := congrArg String.data h
  simpa [Nat.repr, List.asString] using this

theorem dash_not_mem_natRepr (n : Nat) : '-' ∉ (Nat.repr n).data := by
  intro hmem
  have hdig : ('-' : Char) ∈ Nat.toDigits 10 n := by
    simpa [Nat.repr, List.asString] using hmem
  rcases mem_toDigits_ten n '-' hdig with ⟨m, _, hm⟩
  exact digitChar_ne_dash m hm.symm

theorem append_cons_sep_inj {α : Type} {a : α} :
    ∀ {xs ys l l' : List α}, a ∉ xs → a ∉ ys →
      xs ++ a :: l = ys ++ a :: l' → xs = ys ∧ l = l' := by
  intro xs
  induction xs with
  | nil =>
    intro ys l l' _ hy h
    cases ys with
    | nil => simpa using h
    | cons y ys' =>
      simp at h
      exact absurd (h.1 ▸ List.mem_cons_self y ys') hy
  | cons x xs' ih =>
    intro ys l l' hx hy h
    cases ys with
    | nil =>
      simp at h
      exact absurd (h.1 ▸ List.mem_cons_self x xs') hx
    | cons y ys' =>
      simp only [List.cons_append, List.cons.injEq] at h
      have hrec := ih (fun hmem => hx (List.mem_cons_of_mem x hmem))
        (fun hmem => hy (List.mem_cons_of_mem y hmem)) h.2
      exact ⟨by rw [h.1, hrec.1], hrec.2⟩

theorem errKey_inj {s1 s2 : String} {i1 i2 : Nat}
    (h : errKey s1 i1 = errKey s2 i2) : s1 = s2 ∧ i1 = i2 := by
  unfold errKey at h
  have hd : s1.data ++ '-' :: (Nat.repr i1).data
      = s2.data ++ '-' :: (Nat.repr i2).data := by
    have hdata := congrArg String.data h
    simpa [String.data_append] using hdata
  have hrev : (Nat.repr i1).data.reverse ++ '-' :: s1.data.reverse
      = (Nat.repr i2).data.reverse ++ '-' :: s2.data.reverse := by
    have hr := congrArg List.reverse hd
    simpa [List.reverse_append] using hr
  have hsplit := append_cons_sep_inj
    (fun hmem => dash_not_mem_natRepr i1 (List.mem_reverse.1 hmem))
    (fun hmem => dash_not_mem_natRepr i2 (List.mem_reverse.1 hmem)) hrev
  constructor
  · apply String.ext
    have := congrArg List.reverse hsplit.2
    simpa using this
  · apply natRepr_inj
    apply String.ext
    have := congrArg List.reverse hsplit.1
    simpa using this

theorem contains_dirtyRowKeys {d : DirtyRows} {s : String} {i : Nat} :
    (dirtyRowKeys d).contains (errKey s i) = true ↔
      ∃ p ∈ d, p.1 = s ∧ i ∈ p.2 := by
  rw [List.contains_eq_any_beq]
  simp only [List.any_eq_true, beq_iff_eq]
  unfold dirtyRowKeys
  constructor
  · rintro ⟨k, hk, rfl⟩
    rcases List.mem_flatMap.1 hk with ⟨p, hp, hkey⟩
    rcases List.mem_map.1 hkey with ⟨j, hj, hkeyeq⟩
    rcases errKey_inj hkeyeq with ⟨hs, hi⟩
    exact ⟨p, hp, hs, hi ▸ hj⟩
  · rintro ⟨p, hp, rfl, hi⟩
    exact ⟨errKey p.1 i, List.mem_flatMap.2 ⟨p, hp, List.mem_map.2 ⟨i, hi, rfl⟩⟩, rfl⟩

theorem lookup_mem {α β : Type} [BEq α] [LawfulBEq α] {l : List (α × β)}
    {k : α} {v : β} (h : l.lookup k = some v) : (k, v) ∈ l := by
  induction l with
  | nil => simp [List.lookup] at h
  | cons p l ih =>
    rcases p with ⟨k', v'⟩
    rw [List.lookup_cons] at h
    by_cases hk : k == k'
    · simp only [hk] at h
      have hkeq : k = k' := eq_of_beq hk
      have hveq : v' = v := by simpa using h
      simp [hkeq, hveq.symm]
    · simp only [Bool.of_not_eq_true hk] at h
      exact List.mem_cons_of_mem _ (ih h)

theorem exceptMapM_ok_of_forall {α β : Type} {l : List α}
    {f : α → Except Unit β} {b : β} (h : ∀ a ∈ l, f a = Except.ok b) :
    l.mapM f = Except.ok (l.map fun _ => b) := by
  induction l with
  | nil => rfl
  | cons a l ih =>
    rw [List.mapM_cons, h a (by simp), ih (fun x hx => h x (by simp [hx]))]
    rfl

/-! ## C10 — initial state construction -/

/-- C10: `buildInitialState` needs a non-empty definition list (it
reads the first definition's id); it then starts in upload mode with
no errors, validation not in progress, zero progress, the first
definition as current sheet, and one empty-rowed `SheetState` per
definition in definition order — and `buildState` falls back to this
same initial state whenever persistence is disabled or the persisted
load fails. -/
theorem buildInitialState_spec (sheetDefinitions : List SheetDefinition)
    (h : sheetDefinitions ≠ []) :
    (buildInitialState sheetDefinitions h).mode = ImporterMode.upload ∧
    (buildInitialState sheetDefinitions h).validationErrors = [] ∧
    (buildInitialState sheetDefinitions h).validationInProgress = false ∧
    (buildInitialState sheetDefinitions h).importProgress = 0 ∧
    (buildInitialState sheetDefinitions h).currentSheetId =
      (sheetDefinitions.head h).id ∧
    (buildInitialState sheetDefinitions h).sheetData.length =
      sheetDefinitions.length ∧
    (∀ i, (buildInitialState sheetDefinitions h).sheetData.get? i =
      (sheetDefinitions.get? i).map (fun sheet =>
        ({ sheetId := sheet.id, rows := [] } : SheetState))) ∧
    (∀ loadResult, buildState sheetDefinitions h false loadResult =
      buildInitialState sheetDefinitions h) ∧
    (∀ persistenceEnabled,
      buildState sheetDefinitions h persistenceEnabled (Except.error ()) =
        buildInitialState sheetDefinitions h) := by
  refine ⟨rfl, rfl, rfl, rfl, rfl, by simp [buildInitialState], ?_, ?_, ?_⟩
  · intro i
    simp [buildInitialState, List.get?_eq_getElem?, List.getElem?_map]
  · intro loadResult
    rfl
  · intro persistenceEnabled
    cases persistenceEnabled <;> rfl

theorem buildInitialState_spec_witness :
    ([({ id := "s", columns := [] } : SheetDefinition)] ≠ []) ∧
    (buildInitialState [{ id := "s", columns := [] }]
      (by simp)).mode = ImporterMode.upload :=
  ⟨by simp, (buildInitialState_spec [{ id := "s", columns := [] }] (by simp)).1⟩

/-! ## C5 — `fieldIsRequired` -/

/-- The column of the C5 counterexample: two `required` validator
definitions, the first carrying a conditional predicate, the second
unconditional. -/
def twoRequiredColumn : SheetColumnDefinition :=
  { id := "a", type := ColumnType.text,
    validators := some
      [ValidatorDefinition.required (some (fun _ _ => true)),
       ValidatorDefinition.required none] }

/-- C5 counterexample: with `skipConditionCheck` false the code answers
`false` for a column that does contain a `required` validator without a
`when` predicate — the code consults only the first `required`
validator found, not any of them. -/
theorem fieldIsRequired_first_not_any :
    fieldIsRequired twoRequiredColumn false = false ∧
    ∃ v ∈ twoRequiredColumn.validators.getD [],
      v.isRequiredKind = true ∧ v.whenCond = none := by
  refine ⟨rfl, ValidatorDefinition.required none, ?_, rfl, rfl⟩
  exact List.mem_cons_of_mem _ (List.mem_cons_self _ _)

/-- C5 (amended): `fieldIsRequired` with `skipConditionCheck` true is
true iff some `required` validator definition exists; with
`skipConditionCheck` false it is true iff the first `required`
validator definition exists and has no `when` predicate. -/
theorem fieldIsRequired_spec (c : SheetColumnDefinition) :
    (fieldIsRequired c true = true ↔
      ∃ v ∈ c.validators.getD [], v.isRequiredKind = true) ∧
    (fieldIsRequired c false = true ↔
      ∃ v, (c.validators.getD []).find? (fun v => v.isRequiredKind) = some v ∧
        v.whenCond = none) := by
  cases hv : c.validators with
  | none => simp [fieldIsRequired, hv]
  | some validators =>
    cases validators with
    | nil => simp [fieldIsRequired, hv]
    | cons v0 vs =>
      have hlen : (0 : Nat) < (v0 :: vs).length := by simp
      simp only [fieldIsRequired, hv, Option.getD_some, if_pos hlen]
      cases hfind : (v0 :: vs).find? (fun v => v.isRequiredKind) with
      | none =>
        have hno := List.find?_eq_none.1 hfind
        constructor
        · constructor
          · intro hfalse
            cases hfalse
          · rintro ⟨v, hmem, hreq⟩
            exact absurd hreq (hno v hmem)
        · constructor
          · intro hfalse
            cases hfalse
          · rintro ⟨v, hsome, _⟩
            cases hsome
      | some v =>
        have hmem := List.mem_of_find?_eq_some hfind
        have hreq := List.find?_some hfind
        constructor
        · constructor
          · intro _
            exact ⟨v, hmem, hreq⟩
          · intro _
            simp
        · constructor
          · intro hnone
            refine ⟨v, rfl, ?_⟩
            simpa [Option.isNone_iff_eq_none] using hnone
          · rintro ⟨v', hv', hwhen⟩
            have : v = v' := by simpa using hv'
            subst this
            simpa [Option.isNone_iff_eq_none] using hwhen

theorem contains_iff_mem {α : Type} [BEq α] [LawfulBEq α] {l : List α} {a : α} :
    l.contains a = true ↔ a ∈ l := by
  rw [List.contains_eq_any_beq]
  simp only [List.any_eq_true, beq_iff_eq]
  constructor
  · rintro ⟨x, hx, rfl⟩
    exact hx
  · intro ha
    exact ⟨a, ha, rfl⟩

theorem exceptBind_ok_apply {α β : Type} (a : α) (f : α → Except Unit β) :
    (Except.ok a >>= f) = f a := rfl

/-! ## C9 — incremental validation with an inert dirty map -/

/-- The pre-existing error of the C9 inputs. -/
def c9Error : ImporterValidationError :=
  { sheetId := "x", columnId := "c", rowIndex := 5, message := "m" }

/-- C9 counterexample: a dirty map whose only entry names a sheet not
present in the (empty) states runs no validators, yet does not return
the existing error list unchanged — the merge still drops the prior
error keyed to the absent sheet's dirty row. -/
theorem specificRows_absent_sheet_not_noop :
    applyValidationsToSpecificRows [] [] [c9Error] [("x", [5])] =
      Except.ok [] ∧
    (Except.ok ([] : List ImporterValidationError) : Except Unit _) ≠
      Except.ok [c9Error] := by
  constructor
  · rfl
  · simp

/-- C9 (amended): incremental validation with a dirty map whose
per-sheet sets are all empty — or which names no sheet present in the
states and shares no (sheetId, rowIndex) key with the existing
errors — runs no validators and returns the existing errors unchanged,
element for element. -/
theorem applyValidationsToSpecificRows_noop
    (sheetDefinitions : List SheetDefinition)
    (sheetStates : List SheetState)
    (existingErrors : List ImporterValidationError)
    (dirtyRows : DirtyRows)
    (hcase :
      (∀ p ∈ dirtyRows, p.2 = []) ∨
      ((∀ p ∈ dirtyRows, ∀ st ∈ sheetStates, st.sheetId ≠ p.1) ∧
       (∀ e ∈ existingErrors,
         ¬ ∃ p ∈ dirtyRows, p.1 = e.sheetId ∧ e.rowIndex ∈ p.2))) :
    applyValidationsToSpecificRows sheetDefinitions sheetStates existingErrors
      dirtyRows = Except.ok existingErrors := by
  have hnew : incrementalSheetErrors sheetDefinitions sheetStates dirtyRows =
      Except.ok (sheetDefinitions.map fun _ => []) := by
    apply exceptMapM_ok_of_forall
    intro sd _
    rcases hcase with hempty | ⟨habsent, _⟩
    · cases hfind : sheetStates.find? (fun st => st.sheetId == sd.id) with
      | none => simp [incrementalSheetErrors, hfind]
      | some st =>
        cases hlk : dirtyRows.lookup sd.id with
        | none => simp [incrementalSheetErrors, hfind, hlk]
        | some idxs =>
          have hidx : idxs = [] := hempty _ (lookup_mem hlk)
          subst hidx
          simp [incrementalSheetErrors, hfind, hlk]
    · cases hfind : sheetStates.find? (fun st => st.sheetId == sd.id) with
      | none => simp [incrementalSheetErrors, hfind]
      | some st =>
        cases hlk : dirtyRows.lookup sd.id with
        | none => simp [incrementalSheetErrors, hfind, hlk]
        | some idxs =>
          exfalso
          have hmem := lookup_mem hlk
          have hstmem := List.mem_of_find?_eq_some hfind
          have hpred := List.find?_some hfind
          exact habsent _ hmem st hstmem (by simpa using hpred)
  have hfilter : existingErrors.filter (fun error =>
      !(dirtyRowKeys dirtyRows).contains (errKey error.sheetId error.rowIndex)) =
      existingErrors := by
    apply List.filter_eq_self.2
    intro e he
    rcases hcase with hempty | ⟨_, hkeys⟩
    · have hkeysnil : dirtyRowKeys dirtyRows = [] := by
        apply List.flatMap_eq_nil_iff.2
        intro p hp
        simp [hempty p hp]
      simp [hkeysnil]
    · cases hc : (dirtyRowKeys dirtyRows).contains
          (errKey e.sheetId e.rowIndex) with
      | true => exact absurd (contains_dirtyRowKeys.1 hc) (hkeys e he)
      | false => rfl
  unfold applyValidationsToSpecificRows
  rw [hnew, exceptBind_ok_apply]
  have hflat : (sheetDefinitions.map
      fun _ => ([] : List ImporterValidationError)).flatten = [] := by
    rw [List.flatten_eq_nil_iff]
    intro l hl
    rcases List.mem_map.1 hl with ⟨_, _, rfl⟩
    rfl
  simp only [hfilter, hflat, List.append_nil]
  rfl

theorem applyValidationsToSpecificRows_noop_witness :
    (∀ p ∈ ([("a", ([] : List Nat))] : DirtyRows), p.2 = []) ∧
    applyValidationsToSpecificRows [] [] [c9Error] [("a", [])] =
      Except.ok [c9Error] :=
  ⟨by simp,
   applyValidationsToSpecificRows_noop [] [] [c9Error] [("a", [])]
     (Or.inl (by simp))⟩

/-! ## C2 — the incremental merge -/

/-- C2: the merge performed by `applyValidationsToSpecificRows` returns
exactly the existing errors whose (sheetId, rowIndex) pair does not
appear in the dirty-row map — unchanged and in their original relative
order, as a filter of the existing list — followed by all freshly
computed incremental errors appended after them.  The source's
string-keyed filter coincides with the (sheetId, rowIndex) pair filter
because the `` `${sheetId}-${rowIndex}` `` key function is injective. -/
theorem applyValidationsToSpecificRows_merge_spec
    (sheetDefinitions : List SheetDefinition) (sheetStates : List SheetState)
    (existingErrors : List ImporterValidationError) (dirtyRows : DirtyRows)
    (newErrors : List (List ImporterValidationError))
    (h : incrementalSheetErrors sheetDefinitions sheetStates dirtyRows =
      Except.ok newErrors) :
    applyValidationsToSpecificRows sheetDefinitions sheetStates existingErrors
      dirtyRows =
    Except.ok
      (existingErrors.filter (fun e =>
        !dirtyRows.any (fun p => p.1 == e.sheetId && p.2.contains e.rowIndex)) ++
       newErrors.flatten) := by
  unfold applyValidationsToSpecificRows
  rw [h, exceptBind_ok_apply]
  have hfilter : ∀ e ∈ existingErrors,
      (!(dirtyRowKeys dirtyRows).contains (errKey e.sheetId e.rowIndex)) =
      (!dirtyRows.any (fun p => p.1 == e.sheetId && p.2.contains e.rowIndex)) := by
    intro e _
    congr 1
    rw [Bool.eq_iff_iff, contains_dirtyRowKeys]
    simp only [List.any_eq_true, Bool.and_eq_true, beq_iff_eq]
    constructor
    · rintro ⟨p, hp, hs, hi⟩
      exact ⟨p, hp, hs, contains_iff_mem.2 hi⟩
    · rintro ⟨p, hp, hs, hi⟩
      exact ⟨p, hp, hs, contains_iff_mem.1 hi⟩
  rw [List.filter_congr hfilter]
  rfl

/-- Two concrete errors exercising the C2 merge: the first is keyed in
the dirty map and dropped, the second survives. -/
def c2DirtyError : ImporterValidationError :=
  { sheetId := "x", columnId := "c", rowIndex := 5, message := "m" }

def c2CleanError : ImporterValidationError :=
  { sheetId := "y", columnId := "c", rowIndex := 1, message := "n" }

theorem applyValidationsToSpecificRows_merge_spec_witness :
    incrementalSheetErrors [] [] [("x", [5])] = Except.ok [] ∧
    applyValidationsToSpecificRows [] [] [c2DirtyError, c2CleanError]
      [("x", [5])] =
    Except.ok
      (([c2DirtyError, c2CleanError].filter (fun e =>
        !([("x", [5])] : DirtyRows).any (fun p =>
          p.1 == e.sheetId && p.2.contains e.rowIndex)) ++
       List.flatten [])) :=
  ⟨rfl,
   applyValidationsToSpecificRows_merge_spec [] [] [c2DirtyError, c2CleanError]
     [("x", [5])] [] rfl⟩

/-! ## C1 — full validation vs all-rows-dirty incremental validation -/

theorem enum_fst_lt {α : Type} {l : List α} {p : Nat × α} (hp : p ∈ l.enum) :
    p.1 < l.length := by
  have h := List.mem_enum_iff_getElem?.1 hp
  rcases List.getElem?_eq_some.1 h with ⟨hlt, _⟩
  exact hlt

theorem flatten_map_nil {α β : Type} (l : List α) :
    (l.map fun _ => ([] : List β)).flatten = [] := by
  rw [List.flatten_eq_nil_iff]
  intro x hx
  rcases List.mem_map.1 hx with ⟨_, _, rfl⟩
  rfl

theorem bind_mapM_flatten_nil {α β : Type} (l : List α)
    (F : α → Except Unit (List β)) (h : ∀ a, F a = Except.ok []) :
    (l.mapM F >>= fun per => pure per.flatten) = Except.ok ([] : List β) := by
  rw [exceptMapM_ok_of_forall (fun a _ => h a), exceptBind_ok_apply,
    flatten_map_nil]
  rfl

theorem bind_mapM_congr {α β γ : Type} (l : List α) (F G : α → Except Unit β)
    (k : List β → Except Unit γ) (h : ∀ a ∈ l, F a = G a) :
    (l.mapM F >>= k) = (l.mapM G >>= k) := by
  rw [exceptMapM_congr h]

theorem validateSheet_nil_rows (sd : SheetDefinition) (sid : String)
    (allData : List SheetState) :
    validateSheet sd { sheetId := sid, rows := [] } allData = Except.ok [] :=
  bind_mapM_flatten_nil sd.columns _ (fun _ => rfl)

theorem validateSpecificRows_nil_rows (sd : SheetDefinition) (sid : String)
    (allData : List SheetState) (rowIndices : List Nat) :
    validateSpecificRows sd { sheetId := sid, rows := [] } allData rowIndices =
      Except.ok [] :=
  bind_mapM_flatten_nil sd.columns _ (fun _ => rfl)

theorem validateSpecificRows_all (sd : SheetDefinition) (st : SheetState)
    (allData : List SheetState) (rowIndices : List Nat)
    (hall : ∀ i < st.rows.length, rowIndices.contains i = true) :
    validateSpecificRows sd st allData rowIndices =
      validateSheet sd st allData :=
  bind_mapM_congr sd.columns _ _ _ (fun c _ =>
    bind_mapM_congr st.rows.enum _ _ _ (fun p hp => by
      rw [if_pos (hall p.1 (enum_fst_lt hp))]))

/-- C1: for any prior error list all of whose (sheetId, rowIndex) pairs
are covered by a dirty-row map that marks every row index of every
sheet, incremental validation returns the very same result as full
validation — equality of `Except` values, hence in particular the same
set of (sheetId, columnId, rowIndex, message) tuples.  The embedding
is deterministic, so this holds independently of the evaluation order
the source's promise fan-out would exhibit. -/
theorem incremental_all_dirty_eq_full
    (sheetDefinitions : List SheetDefinition) (sheetStates : List SheetState)
    (existingErrors : List ImporterValidationError) (dirtyRows : DirtyRows)
    (hcover : ∀ sd ∈ sheetDefinitions, ∀ i : Nat,
      i < ((sheetStates.find? (fun st => st.sheetId == sd.id)).elim 0
        (fun st => st.rows.length)) →
      ((dirtyRows.lookup sd.id).elim false
        (fun rowIndices => rowIndices.contains i)) = true)
    (hE : ∀ e ∈ existingErrors,
      dirtyRows.any (fun p => p.1 == e.sheetId && p.2.contains e.rowIndex)
        = true) :
    applyValidationsToSpecificRows sheetDefinitions sheetStates existingErrors
      dirtyRows = applyValidations sheetDefinitions sheetStates := by
  have hmapm : incrementalSheetErrors sheetDefinitions sheetStates dirtyRows =
      sheetDefinitions.mapM (fun sheetDefinition =>
        match sheetStates.find?
            (fun state => state.sheetId == sheetDefinition.id) with
        | some sheetData => validateSheet sheetDefinition sheetData sheetStates
        | none => Except.ok []) := by
    unfold incrementalSheetErrors
    apply exceptMapM_congr
    intro sd hsd
    cases hfind : sheetStates.find? (fun state => state.sheetId == sd.id) with
    | none => cases hlk : dirtyRows.lookup sd.id <;> rfl
    | some st =>
      obtain ⟨sid, rows⟩ := st
      cases hrows : rows with
      | nil =>
        subst hrows
        cases hlk : dirtyRows.lookup sd.id with
        | none =>
          show Except.ok [] =
            validateSheet sd { sheetId := sid, rows := [] } sheetStates
          rw [validateSheet_nil_rows]
        | some idxs =>
          show (if idxs.length > 0 then
              validateSpecificRows sd { sheetId := sid, rows := [] }
                sheetStates idxs
            else Except.ok []) =
            validateSheet sd { sheetId := sid, rows := [] } sheetStates
          by_cases hlen : idxs.length > 0
          · rw [if_pos hlen, validateSpecificRows_nil_rows,
              validateSheet_nil_rows]
          · rw [if_neg hlen, validateSheet_nil_rows]
      | cons r rest =>
        subst hrows
        have h0 := hcover sd hsd 0 (by rw [hfind]; simp)
        cases hlk : dirtyRows.lookup sd.id with
        | none =>
          rw [hlk] at h0
          cases h0
        | some idxs =>
          rw [hlk] at h0
          have hmem0 : (0 : Nat) ∈ idxs := contains_iff_mem.1 h0
          have hlen : idxs.length > 0 :=
            List.length_pos.2 (List.ne_nil_of_mem hmem0)
          show (if idxs.length > 0 then
              validateSpecificRows sd { sheetId := sid, rows := r :: rest }
                sheetStates idxs
            else Except.ok []) =
            validateSheet sd { sheetId := sid, rows := r :: rest } sheetStates
          rw [if_pos hlen]
          apply validateSpecificRows_all
          intro i hi
          have hcov := hcover sd hsd i (by rw [hfind]; exact hi)
          rw [hlk] at hcov
          exact hcov
  have hfiltered : existingErrors.filter (fun error =>
      !(dirtyRowKeys dirtyRows).contains (errKey error.sheetId error.rowIndex))
      = [] := by
    apply List.filter_eq_nil_iff.2
    intro e he
    have hany := hE e he
    simp only [List.any_eq_true, Bool.and_eq_true, beq_iff_eq] at hany
    rcases hany with ⟨p, hp, hs, hcont⟩
    have hc : (dirtyRowKeys dirtyRows).contains (errKey e.sheetId e.rowIndex)
        = true :=
      contains_dirtyRowKeys.2 ⟨p, hp, hs, contains_iff_mem.1 hcont⟩
    rw [hc]
    decide
  unfold applyValidationsToSpecificRows applyValidations
  rw [hmapm]
  congr 1
  funext newErrors
  rw [hfiltered]
  simp

/-- Inputs of the C1 witness: one sheet, one row with data, one prior
error, and a dirty map marking the single row. -/
def c1Sheet : SheetDefinition :=
  { id := "s", columns := [
      { id := "a", type := ColumnType.text,
        validators := some [ValidatorDefinition.required none] }] }

def c1State : SheetState :=
  { sheetId := "s", rows := [[("a", CellValue.str "v")]] }

def c1Error : ImporterValidationError :=
  { sheetId := "s", columnId := "a", rowIndex := 0, message := "old" }

theorem incremental_all_dirty_eq_full_witness :
    (∀ sd ∈ [c1Sheet], ∀ i : Nat,
      i < (([c1State].find? (fun st => st.sheetId == sd.id)).elim 0
        (fun st => st.rows.length)) →
      ((([("s", [0])] : DirtyRows).lookup sd.id).elim false
        (fun rowIndices => rowIndices.contains i)) = true) ∧
    applyValidationsToSpecificRows [c1Sheet] [c1State] [c1Error] [("s", [0])] =
      applyValidations [c1Sheet] [c1State] :=
  ⟨by decide,
   incremental_all_dirty_eq_full [c1Sheet] [c1State] [c1Error] [("s", [0])]
     (by decide) (by decide)⟩

/-! ## C7 — automatic enum and reference validators -/

theorem refExtract_row_mem (rid : String) (row : SheetRow) (v : CellValue) :
    (match row.find? (fun p => p.1 == rid) with
      | some p => if isEmptyCell p.2 then none else some p.2
      | none => none) = some v ↔
    (rowHas row rid = true ∧ rowGet row rid = v ∧ isEmptyCell v = false) := by
  cases hf : row.find? (fun p => p.1 == rid) with
  | none =>
    show (none : Option CellValue) = some v ↔ _
    constructor
    · intro hcontra
      cases hcontra
    · rintro ⟨hhas, _, _⟩
      rcases List.any_eq_true.1 hhas with ⟨p, hp, hpred⟩
      exact absurd hpred (List.find?_eq_none.1 hf p hp)
  | some p =>
    have hget : rowGet row rid = p.2 := by
      unfold rowGet
      rw [hf]
    have hhas : rowHas row rid = true := by
      unfold rowHas
      have hpred := List.find?_some hf
      exact List.any_eq_true.2 ⟨p, List.mem_of_find?_eq_some hf, hpred⟩
    show (if isEmptyCell p.2 then none else some p.2) = some v ↔ _
    cases hemp : isEmptyCell p.2 with
    | true =>
      simp only [hemp, if_true]
      constructor
      · intro hcontra
        cases hcontra
      · rintro ⟨_, hgv, hve⟩
        have hpv : p.2 = v := hget.symm.trans hgv
        rw [hpv, hve] at hemp
        cases hemp
    | false =>
      simp only [hemp, Bool.false_eq_true, if_false]
      constructor
      · intro hsome
        have hpv : p.2 = v := Option.some.inj hsome
        exact ⟨hhas, hget.trans hpv, hpv ▸ hemp⟩
      · rintro ⟨_, hgv, _⟩
        rw [hget.symm.trans hgv]

/-- C7: an `enum` column automatically receives an `includes` validator
whose allowed set is exactly the declared enumeration's values — the
built validator errors precisely on values outside the declared set
and accepts every declared value — and a `reference` column
automatically receives an `includes` validator whose allowed set is
the duplicate-free list of present, non-empty values of the referenced
column across all sheets of the data passed at the call; the set is a
function of the call's data, recomputed rather than cached. -/
theorem automaticFieldValidators_spec :
    (∀ (c : SheetColumnDefinition) (values : List EnumValue)
        (allData : List SheetState),
      c.type = ColumnType.enum values →
      automaticFieldValidators c allData =
        [ValidatorDefinition.includes (values.map (fun v => v.value))] ∧
      (∀ (value : CellValue) (row : SheetRow),
        (buildValidatorFromDefinition
          (ValidatorDefinition.includes
            (values.map (fun v => v.value)))).isValid value row =
        Except.ok (if value ∈ values.map (fun v => v.value) then none
          else some "includes"))) ∧
    (∀ (c : SheetColumnDefinition) (rid : String) (allData : List SheetState),
      c.type = ColumnType.reference rid →
      automaticFieldValidators c allData =
        [ValidatorDefinition.includes
          (extractReferenceColumnPossibleValues c allData)] ∧
      (extractReferenceColumnPossibleValues c allData).Nodup ∧
      (∀ v : CellValue, v ∈ extractReferenceColumnPossibleValues c allData ↔
        ∃ st ∈ allData, ∃ row ∈ st.rows,
          rowHas row rid = true ∧ rowGet row rid = v ∧
            isEmptyCell v = false)) := by
  constructor
  · intro c values allData htype
    constructor
    · unfold automaticFieldValidators
      rw [htype]
      rfl
    · intro value row
      show Except.ok _ = Except.ok _
      congr 1
      by_cases hmem : value ∈ values.map (fun v => v.value)
      · rw [if_pos (contains_iff_mem.2 hmem), if_pos hmem]
      · rw [if_neg (fun hc => hmem (contains_iff_mem.1 hc)), if_neg hmem]
  · intro c rid allData htype
    refine ⟨?_, ?_, ?_⟩
    · unfold automaticFieldValidators
      rw [htype]
      rfl
    · unfold extractReferenceColumnPossibleValues
      rw [htype]
      exact List.nodup_dedup _
    · intro v
      unfold extractReferenceColumnPossibleValues
      rw [htype]
      rw [List.mem_dedup, List.mem_filterMap]
      constructor
      · rintro ⟨row, hrow, hf⟩
        rcases List.mem_flatMap.1 hrow with ⟨st, hst, hrowmem⟩
        exact ⟨st, hst, row, hrowmem, (refExtract_row_mem rid row v).1 hf⟩
      · rintro ⟨st, hst, row, hrowmem, hprops⟩
        exact ⟨row, List.mem_flatMap.2 ⟨st, hst, hrowmem⟩,
          (refExtract_row_mem rid row v).2 hprops⟩

/-- The enum column of the C7 witness (Scenario C's `status` column). -/
def statusColumn : SheetColumnDefinition :=
  { id := "status", type := ColumnType.enum
      [{ value := CellValue.str "active", label := "Active" },
       { value := CellValue.str "inactive", label := "Inactive" }] }

theorem automaticFieldValidators_spec_witness :
    statusColumn.type = ColumnType.enum
      [{ value := CellValue.str "active", label := "Active" },
       { value := CellValue.str "inactive", label := "Inactive" }] ∧
    (automaticFieldValidators statusColumn [] =
      [ValidatorDefinition.includes
        [CellValue.str "active", CellValue.str "inactive"]] ∧
     ∀ (value : CellValue) (row : SheetRow),
      (buildValidatorFromDefinition
        (ValidatorDefinition.includes
          [CellValue.str "active", CellValue.str "inactive"])).isValid
            value row =
        Except.ok (if value ∈ [CellValue.str "active", CellValue.str "inactive"]
          then none else some "includes")) :=
  ⟨rfl, automaticFieldValidators_spec.1 statusColumn
    [{ value := CellValue.str "active", label := "Active" },
     { value := CellValue.str "inactive", label := "Inactive" }] [] rfl⟩

/-! ## C8 — single-row transformation frame property -/

theorem rowGet_cons (p : String × CellValue) (rest : SheetRow) (k : String) :
    rowGet (p :: rest) k = if p.1 == k then p.2 else rowGet rest k := by
  unfold rowGet
  rw [List.find?_cons]
  cases hp : (p.1 == k) with
  | true => simp [hp]
  | false => simp [hp]

theorem rowGet_mapReplace_eq (r : SheetRow) (k' : String) (v : CellValue) :
    rowGet (r.map (fun p => if p.1 == k' then (k', v) else p)) k' =
      if r.any (fun p => p.1 == k') then v else CellValue.undef := by
  induction r with
  | nil => rfl
  | cons p rest ih =>
    rw [List.map_cons, List.any_cons]
    cases hp : (p.1 == k') with
    | true =>
      simp only [hp, if_true, Bool.true_or, rowGet_cons]
      simp
    | false =>
      simp only [hp, Bool.false_eq_true, if_false, Bool.false_or, rowGet_cons]
      rw [ih]

theorem rowGet_mapReplace_ne (r : SheetRow) (k' k : String) (v : CellValue)
    (hkk : (k' == k) = false) :
    rowGet (r.map (fun p => if p.1 == k' then (k', v) else p)) k =
      rowGet r k := by
  induction r with
  | nil => rfl
  | cons p rest ih =>
    rw [List.map_cons]
    cases hp : (p.1 == k') with
    | true =>
      have hpk : (p.1 == k) = false := by
        have h1 : p.1 = k' := eq_of_beq hp
        rw [h1]
        exact hkk
      simp only [hp, if_true, rowGet_cons, hkk, hpk, Bool.false_eq_true,
        if_false]
      exact ih
    | false =>
      simp only [hp, Bool.false_eq_true, if_false, rowGet_cons]
      cases hpk : (p.1 == k) with
      | true => simp
      | false =>
        simp only [Bool.false_eq_true, if_false]
        exact ih

theorem rowGet_rowSet (r : SheetRow) (k' k : String) (v : CellValue) :
    rowGet (rowSet r k' v) k = if k == k' then v else rowGet r k := by
  unfold rowSet
  cases hany : r.any (fun p => p.1 == k') with
  | true =>
    simp only [hany, if_true]
    cases hkk : (k == k') with
    | true =>
      have hk : k = k' := eq_of_beq hkk
      subst hk
      rw [rowGet_mapReplace_eq, hany]
      simp
    | false =>
      have hk' : (k' == k) = false := by
        rcases eq_or_ne k' k with rfl | hne
        · rw [beq_eq_false_iff_ne] at hkk
          exact absurd rfl hkk
        · exact beq_eq_false_iff_ne.2 hne
      rw [rowGet_mapReplace_ne r k' k v hk']
      simp [hkk]
  | false =>
    simp only [hany, Bool.false_eq_true, if_false]
    unfold rowGet
    rw [List.find?_append]
    cases hkk : (k == k') with
    | true =>
      have hk : k = k' := eq_of_beq hkk
      subst hk
      have hfr : r.find? (fun p => p.1 == k) = none := by
        rw [List.find?_eq_none]
        intro p hp
        intro hpred
        have : r.any (fun q => q.1 == k) = true :=
          List.any_eq_true.2 ⟨p, hp, hpred⟩
        rw [hany] at this
        cases this
      rw [hfr]
      simp
    | false =>
      have hk' : ((k', v).1 == k) = false := by
        show (k' == k) = false
        rcases eq_or_ne k' k with rfl | hne
        · rw [beq_eq_false_iff_ne] at hkk
          exact absurd rfl hkk
        · exact beq_eq_false_iff_ne.2 hne
      rw [List.find?_cons]
      rw [hk']
      simp

theorem transformColumnStep_ne (pipelines : String → Pipeline) (r : SheetRow)
    (c : SheetColumnDefinition) (key : String) (h : (key == c.id) = false) :
    rowGet (transformColumnStep pipelines r c) key = rowGet r key := by
  unfold transformColumnStep
  cases hemp : isEmptyCell (rowGet r c.id) with
  | true => simp [hemp]
  | false =>
    simp only [hemp, Bool.not_false, if_true]
    rw [rowGet_rowSet, h]
    simp

theorem foldl_transform_frame (pipelines : String → Pipeline)
    (cols : List SheetColumnDefinition) :
    ∀ (r : SheetRow) (key : String), (∀ c ∈ cols, (key == c.id) = false) →
      rowGet (cols.foldl (transformColumnStep pipelines) r) key =
        rowGet r key := by
  induction cols with
  | nil =>
    intro r key _
    rfl
  | cons c rest ih =>
    intro r key h
    rw [List.foldl_cons, ih _ key (fun c' hc' => h c' (by simp [hc']))]
    exact transformColumnStep_ne pipelines r c key (h c (by simp))

theorem foldl_transform_spec (pipelines : String → Pipeline)
    (cols : List SheetColumnDefinition) :
    ∀ (r : SheetRow) (key : String), (cols.map (fun c => c.id)).Nodup →
      rowGet (cols.foldl (transformColumnStep pipelines) r) key =
        rowGet r key ∨
      (∃ c ∈ cols, c.id = key ∧ isEmptyCell (rowGet r key) = false ∧
        rowGet (cols.foldl (transformColumnStep pipelines) r) key =
          (pipelines key).transform (rowGet r key)) := by
  induction cols with
  | nil =>
    intro r key _
    exact Or.inl rfl
  | cons c rest ih =>
    intro r key hnodup
    rw [List.map_cons, List.nodup_cons] at hnodup
    obtain ⟨hcnot, hrest⟩ := hnodup
    rw [List.foldl_cons]
    by_cases hkey : key = c.id
    · subst hkey
      have hframe : rowGet
          (rest.foldl (transformColumnStep pipelines)
            (transformColumnStep pipelines r c)) c.id =
          rowGet (transformColumnStep pipelines r c) c.id := by
        apply foldl_transform_frame
        intro c' hc'
        apply beq_eq_false_iff_ne.2
        intro he
        exact hcnot (he ▸ List.mem_map_of_mem (fun cd => cd.id) hc')
      rw [hframe]
      unfold transformColumnStep
      cases hemp : isEmptyCell (rowGet r c.id) with
      | true =>
        left
        simp [hemp]
      | false =>
        right
        refine ⟨c, List.mem_cons_self _ _, rfl, rfl, ?_⟩
        simp [hemp, rowGet_rowSet]
    · have hne : (key == c.id) = false := beq_eq_false_iff_ne.2 hkey
      have hstep : rowGet (transformColumnStep pipelines r c) key =
          rowGet r key := transformColumnStep_ne _ _ _ _ hne
      rcases ih (transformColumnStep pipelines r c) key hrest with
        hl | ⟨c', hc', hid, hempty, hval⟩
      · left
        rw [hl, hstep]
      · right
        rw [hstep] at hempty hval
        exact ⟨c', List.mem_cons_of_mem _ hc', hid, hempty, hval⟩

theorem transformRow_spec (row : SheetRow) (pipelines : String → Pipeline)
    (sd : SheetDefinition)
    (hnodup : (sd.columns.map (fun c => c.id)).Nodup) (key : String) :
    rowGet (transformRow row pipelines sd) key = rowGet row key ∨
    (∃ c ∈ sd.columns, c.id = key ∧
      isEmptyCell (rowGet row key) = false ∧
      rowGet (transformRow row pipelines sd) key =
        (pipelines key).transform (rowGet row key)) := by
  unfold transformRow
  cases hd : hasData row with
  | false =>
    left
    simp [hd]
  | true =>
    simp only [hd, Bool.not_true, Bool.false_eq_true, if_false]
    exact foldl_transform_spec pipelines sd.columns row key hnodup

theorem foldl_overwrite_frame {β : Type} (cols : List SheetColumnDefinition)
    (mk : SheetColumnDefinition → β) (k : String) :
    ∀ (base : String → β), (∀ c ∈ cols, (k == c.id) = false) →
      (cols.foldl (fun obj columnDefinition => fun key =>
        if key == columnDefinition.id then mk columnDefinition else obj key)
        base) k = base k := by
  induction cols with
  | nil =>
    intro base _
    rfl
  | cons c rest ih =>
    intro base h
    rw [List.foldl_cons, ih _ (fun c' hc' => h c' (by simp [hc']))]
    simp [h c (by simp)]

theorem foldl_overwrite {β : Type} (cols : List SheetColumnDefinition)
    (mk : SheetColumnDefinition → β) :
    ∀ (base : String → β), ∀ c ∈ cols,
      (cols.map (fun c => c.id)).Nodup →
      (cols.foldl (fun obj columnDefinition => fun key =>
        if key == columnDefinition.id then mk columnDefinition else obj key)
        base) c.id = mk c := by
  induction cols with
  | nil =>
    intro base c hc
    cases hc
  | cons c0 rest ih =>
    intro base c hc hnodup
    rw [List.map_cons, List.nodup_cons] at hnodup
    obtain ⟨h0, hrest⟩ := hnodup
    rw [List.foldl_cons]
    rcases List.mem_cons.1 hc with rfl | hc
    · rw [foldl_overwrite_frame rest mk c.id _ (fun c' hc' =>
        beq_eq_false_iff_ne.2 (fun he =>
          h0 (he ▸ List.mem_map_of_mem (fun cd => cd.id) hc')))]
      simp
    · exact ih _ c hc hrest

theorem buildPipelineByColumnId_eq (sd : SheetDefinition)
    (c : SheetColumnDefinition) (hc : c ∈ sd.columns)
    (hnodup : (sd.columns.map (fun c => c.id)).Nodup) :
    buildPipelineByColumnId sd c.id =
      { steps := (c.transformers.getD []).map buildTransformerFromDefinition } := by
  unfold buildPipelineByColumnId
  exact foldl_overwrite sd.columns _ _ c hc hnodup

/-- C8: `applyTransformationsToSingleRow` changes at most the row at
`targetRowIndex` of the sheet with id `targetSheetId`: the output has
one state per input state, states with a different sheetId are
returned as-is, rows of the target sheet at other indices are
unchanged, and within the target row a cell's value changes only when
it was non-empty, to the result of its column's pipeline applied
left-to-right to the old value. -/
theorem applyTransformationsToSingleRow_frame
    (sheetDefinitions : List SheetDefinition) (sheetStates : List SheetState)
    (targetSheetId : String) (targetRowIndex : Nat)
    (hnodup : ∀ sd ∈ sheetDefinitions, (sd.columns.map (fun c => c.id)).Nodup) :
    (applyTransformationsToSingleRow sheetDefinitions sheetStates targetSheetId
        targetRowIndex).length = sheetStates.length ∧
    (∀ (i : Nat) (st : SheetState), sheetStates.get? i = some st →
      (st.sheetId == targetSheetId) = false →
      (applyTransformationsToSingleRow sheetDefinitions sheetStates
        targetSheetId targetRowIndex).get? i = some st) ∧
    (∀ (i : Nat) (st : SheetState), sheetStates.get? i = some st →
      ∃ st', (applyTransformationsToSingleRow sheetDefinitions sheetStates
          targetSheetId targetRowIndex).get? i = some st' ∧
        st'.sheetId = st.sheetId ∧
        st'.rows.length = st.rows.length ∧
        (∀ j : Nat, j ≠ targetRowIndex → st'.rows.get? j = st.rows.get? j) ∧
        (∀ (row row' : SheetRow), st.rows.get? targetRowIndex = some row →
          st'.rows.get? targetRowIndex = some row' →
          ∀ key, rowGet row' key = rowGet row key ∨
            (∃ sd, sheetDefinitions.find? (fun d => d.id == targetSheetId) =
                some sd ∧
              ∃ c ∈ sd.columns, c.id = key ∧
                isEmptyCell (rowGet row key) = false ∧
                rowGet row' key = Pipeline.transform
                  { steps := (c.transformers.getD []).map
                      buildTransformerFromDefinition }
                  (rowGet row key)))) := by
  unfold applyTransformationsToSingleRow
  refine ⟨by rw [List.length_map], ?_, ?_⟩
  · intro i st hget hne
    rw [List.get?_eq_getElem?] at hget ⊢
    rw [List.getElem?_map, hget]
    show some _ = some _
    congr 1
    beta_reduce
    rw [hne]
    rfl
  · intro i st hget
    rw [List.get?_eq_getElem?] at hget
    cases hsheet : (st.sheetId == targetSheetId) with
    | false =>
      refine ⟨st, ?_, rfl, rfl, fun _ _ => rfl, ?_⟩
      · rw [List.get?_eq_getElem?, List.getElem?_map, hget]
        show some _ = some _
        congr 1
        beta_reduce
        rw [hsheet]
        rfl
      · intro row row' hrow hrow'
        rw [hrow] at hrow'
        have heq : row = row' := Option.some.inj hrow'
        subst heq
        intro key
        exact Or.inl rfl
    | true =>
      cases hfind : sheetDefinitions.find? (fun d => d.id == targetSheetId) with
      | none =>
        refine ⟨st, ?_, rfl, rfl, fun _ _ => rfl, ?_⟩
        · rw [List.get?_eq_getElem?, List.getElem?_map, hget]
          show some _ = some _
          congr 1
          beta_reduce
          rw [hsheet]
          rfl
        · intro row row' hrow hrow'
          rw [hrow] at hrow'
          have heq : row = row' := Option.some.inj hrow'
          subst heq
          intro key
          exact Or.inl rfl
      | some sd =>
        cases htarget : st.rows.get? targetRowIndex with
        | none =>
          refine ⟨st, ?_, rfl, rfl, fun _ _ => rfl, ?_⟩
          · rw [List.get?_eq_getElem?, List.getElem?_map, hget]
            show some _ = some _
            congr 1
            beta_reduce
            rw [hsheet, htarget]
            rfl
          · intro row row' hrow _
            cases hrow
        | some targetRow =>
          have hlt : targetRowIndex < st.rows.length := by
            rcases List.get?_eq_some.1 htarget with ⟨h, _⟩
            exact h
          refine ⟨{ st with
              rows := st.rows.set targetRowIndex
                (transformRow targetRow (buildPipelineByColumnId sd) sd) },
            ?_, rfl, by simp [List.length_set], ?_, ?_⟩
          · rw [List.get?_eq_getElem?, List.getElem?_map, hget]
            show some _ = some _
            congr 1
            beta_reduce
            rw [hsheet, htarget]
            rfl
          · intro j hj
            show (st.rows.set targetRowIndex
              (transformRow targetRow (buildPipelineByColumnId sd) sd)).get? j
              = st.rows.get? j
            rw [List.get?_eq_getElem?, List.get?_eq_getElem?]
            exact List.getElem?_set_ne (fun he => hj he.symm)
          · intro row row' hrow hrow'
            have hroweq : row = targetRow := (Option.some.inj hrow).symm
            subst hroweq
            have hrow'eq : row' =
                transformRow row (buildPipelineByColumnId sd) sd := by
              have hset : (st.rows.set targetRowIndex
                  (transformRow row (buildPipelineByColumnId sd) sd)).get?
                    targetRowIndex =
                  some (transformRow row (buildPipelineByColumnId sd) sd) := by
                rw [List.get?_eq_getElem?]
                exact List.getElem?_set_self hlt
              have hrow'2 : (st.rows.set targetRowIndex
                  (transformRow row (buildPipelineByColumnId sd) sd)).get?
                    targetRowIndex = some row' := hrow'
              rw [hset] at hrow'2
              exact (Option.some.inj hrow'2).symm
            subst hrow'eq
            intro key
            have hnd := hnodup sd (List.mem_of_find?_eq_some hfind)
            rcases transformRow_spec row (buildPipelineByColumnId sd) sd hnd
              key with hl | ⟨c, hc, hid, hemp, hval⟩
            · exact Or.inl hl
            · right
              refine ⟨sd, rfl, c, hc, hid, hemp, ?_⟩
              rw [hval, ← hid, buildPipelineByColumnId_eq sd c hc hnd]

/-! ## C6 — eligibility logic of full validation -/

theorem exceptMapM_ok_forall {α β : Type} {l : List α} {out : List β}
    {f : α → Except Unit β} (h : l.mapM f = Except.ok out) :
    ∀ a ∈ l, ∃ b, f a = Except.ok b := by
  induction l generalizing out with
  | nil =>
    intro a ha
    cases ha
  | cons x l ih =>
    rw [List.mapM_cons] at h
    rcases exceptBind_ok.1 h with ⟨y, hfy, h2⟩
    rcases exceptBind_ok.1 h2 with ⟨ys, hml, _⟩
    intro a ha
    rcases List.mem_cons.1 ha with rfl | ha
    · exact ⟨y, hfy⟩
    · exact ih hml a ha

theorem exceptMapM_flatten_mem {α β : Type} {l : List α}
    {out : List (List β)} {f : α → Except Unit (List β)}
    (h : l.mapM f = Except.ok out) (b : β) :
    b ∈ out.flatten ↔ ∃ a ∈ l, ∃ ba, f a = Except.ok ba ∧ b ∈ ba := by
  rw [List.mem_flatten]
  constructor
  · rintro ⟨ba, hba, hb⟩
    rcases (exceptMapM_ok_mem h ba).1 hba with ⟨a, ha, hfa⟩
    exact ⟨a, ha, ba, hfa, hb⟩
  · rintro ⟨a, ha, ba, hfa, hb⟩
    exact ⟨ba, (exceptMapM_ok_mem h ba).2 ⟨a, ha, hfa⟩, hb⟩

theorem exceptMapM_flatten_ok {α β : Type} {l : List α}
    {f : α → Except Unit (List β)} {out : List β} :
    ((l.mapM f) >>= fun per => pure per.flatten) = Except.ok out ↔
    ∃ per, l.mapM f = Except.ok per ∧ out = per.flatten := by
  constructor
  · intro h
    rcases exceptBind_ok.1 h with ⟨per, hm, hp⟩
    exact ⟨per, hm, (Except.ok.inj hp).symm⟩
  · rintro ⟨per, hm, rfl⟩
    rw [hm]
    rfl

theorem validatorsByColumnId_eq (sd : SheetDefinition)
    (allData : List SheetState) (c : SheetColumnDefinition)
    (hc : c ∈ sd.columns)
    (hnodup : (sd.columns.map (fun c => c.id)).Nodup) :
    validatorsByColumnId sd allData c.id =
      (effectiveValidatorDefinitions c allData).map
        buildValidatorFromDefinition := by
  unfold validatorsByColumnId
  exact foldl_overwrite sd.columns _ _ c hc hnodup

theorem cellErrors_mem (sheetId columnId : String) (rowIndex : Nat)
    (validators : List Validator) (value : CellValue) (row : SheetRow)
    (out : List ImporterValidationError)
    (h : cellErrors sheetId columnId rowIndex validators value row =
      Except.ok out)
    (e : ImporterValidationError) :
    e ∈ out ↔ e.sheetId = sheetId ∧ e.columnId = columnId ∧
      e.rowIndex = rowIndex ∧
      ∃ v ∈ validators, v.isValid value row = Except.ok (some e.message) := by
  unfold cellErrors at h
  rcases exceptBind_ok.1 h with ⟨results, hres, hout⟩
  have hout2 : out = results.filterMap (fun r =>
      r.map (fun message =>
        ({ sheetId := sheetId, columnId := columnId,
           rowIndex := rowIndex, message := message }
          : ImporterValidationError))) := (Except.ok.inj hout).symm
  subst hout2
  rw [List.mem_filterMap]
  obtain ⟨es, ec, ei, em⟩ := e
  constructor
  · rintro ⟨r, hr, hmap⟩
    rcases (exceptMapM_ok_mem hres r).1 hr with ⟨v, hv, hval⟩
    cases r with
    | none => cases hmap
    | some msg =>
      have hfields := Option.some.inj hmap
      have h1 : es = sheetId := by cases hfields; rfl
      have h2 : ec = columnId := by cases hfields; rfl
      have h3 : ei = rowIndex := by cases hfields; rfl
      have h4 : msg = em := by cases hfields; rfl
      exact ⟨h1, h2, h3, v, hv, by rw [hval, h4]⟩
  · rintro ⟨h1, h2, h3, v, hv, hval⟩
    refine ⟨some em, (exceptMapM_ok_mem hres (some em)).2 ⟨v, hv, hval⟩, ?_⟩
    have h1' : es = sheetId := h1
    have h2' : ec = columnId := h2
    have h3' : ei = rowIndex := h3
    subst h1' h2' h3'
    rfl

theorem rowColumnErrors_mem (sheetId : String)
    (validatorMap : String → List Validator) (c : SheetColumnDefinition)
    (rowIndex : Nat) (row : SheetRow)
    (out : List ImporterValidationError)
    (h : rowColumnErrors sheetId validatorMap c rowIndex row = Except.ok out)
    (e : ImporterValidationError) :
    e ∈ out ↔ hasData row = true ∧
      (rowHas row c.id = true ∨ fieldIsRequired c true = true) ∧
      e.sheetId = sheetId ∧ e.columnId = c.id ∧ e.rowIndex = rowIndex ∧
      ∃ v ∈ validatorMap c.id,
        v.isValid (rowGet row c.id) row = Except.ok (some e.message) := by
  unfold rowColumnErrors at h
  cases hd : hasData row with
  | false =>
    rw [hd] at h
    simp only [Bool.not_false, if_true] at h
    have hout : out = [] := (Except.ok.inj h).symm
    subst hout
    simp
  | true =>
    rw [hd] at h
    simp only [Bool.not_true, Bool.false_eq_true, if_false] at h
    cases hhas : rowHas row c.id with
    | true =>
      rw [hhas] at h
      simp only [Bool.not_true, Bool.false_and, Bool.false_eq_true,
        if_false] at h
      rw [cellErrors_mem sheetId c.id rowIndex (validatorMap c.id)
        (rowGet row c.id) row out h e]
      simp [hhas]
    | false =>
      rw [hhas] at h
      simp only [Bool.not_false, Bool.true_and] at h
      cases hreq : fieldIsRequired c true with
      | true =>
        rw [hreq] at h
        simp only [Bool.not_true, Bool.false_eq_true, if_false] at h
        rw [cellErrors_mem sheetId c.id rowIndex (validatorMap c.id)
          (rowGet row c.id) row out h e]
        simp [hreq]
      | false =>
        rw [hreq] at h
        simp only [Bool.not_false, if_true] at h
        have hout : out = [] := (Except.ok.inj h).symm
        subst hout
        simp [hhas, hreq]

/-- The sheet of Scenario A: a text `name` column and a required
number `age` column. -/
def ageSheet : SheetDefinition :=
  { id := "s", columns := [
      { id := "name", type := ColumnType.text },
      { id := "age", type := ColumnType.number,
        validators := some [ValidatorDefinition.required none] }] }

/-- Scenario A data: one row that has data but lacks the `age` key. -/
def ageData : SheetState :=
  { sheetId := "s", rows := [[("name", CellValue.str "x")]] }

/-- C6: full validation of a sheet yields exactly the errors of rows
with data, for columns either present in the row or required ignoring
conditional predicates, one error per effective validator returning a
message on (cell value, row) — and in the Scenario A instance, the
required `age` column absent from a row with data yields exactly the
single required error. -/
theorem validateSheet_spec :
    (∀ (sd : SheetDefinition) (sheetData : SheetState)
        (allData : List SheetState) (errs : List ImporterValidationError),
      (sd.columns.map (fun c => c.id)).Nodup →
      validateSheet sd sheetData allData = Except.ok errs →
      ∀ e : ImporterValidationError, e ∈ errs ↔
        ∃ c ∈ sd.columns, ∃ (i : Nat) (row : SheetRow),
          sheetData.rows.get? i = some row ∧
          hasData row = true ∧
          (rowHas row c.id = true ∨ fieldIsRequired c true = true) ∧
          e.sheetId = sd.id ∧ e.columnId = c.id ∧ e.rowIndex = i ∧
          ∃ vd ∈ effectiveValidatorDefinitions c allData,
            (buildValidatorFromDefinition vd).isValid (rowGet row c.id) row =
              Except.ok (some e.message)) ∧
    validateSheet ageSheet ageData [ageData] =
      Except.ok
        [{ sheetId := "s", columnId := "age", rowIndex := 0,
           message := "required" }] := by
  constructor
  · intro sd sheetData allData errs hnodup h e
    unfold validateSheet at h
    rcases exceptBind_ok.1 h with ⟨perColumn, hcols, hpure⟩
    have herrs : errs = perColumn.flatten := (Except.ok.inj hpure).symm
    subst herrs
    rw [exceptMapM_flatten_mem hcols e]
    constructor
    · rintro ⟨c, hc, colOut, hF, hecol⟩
      rcases exceptMapM_flatten_ok.1 hF with ⟨perRow, hrows, hcolOut⟩
      subst hcolOut
      rcases (exceptMapM_flatten_mem hrows e).1 hecol with
        ⟨p, hp, rowOut, hG, herow⟩
      have hpget : sheetData.rows.get? p.1 = some p.2 := by
        rw [List.get?_eq_getElem?]
        exact List.mem_enum_iff_getElem?.1 hp
      have hchar := (rowColumnErrors_mem sd.id
        (validatorsByColumnId sd allData) c p.1 p.2 rowOut hG e).1 herow
      rcases hchar with ⟨hdata, helig, hsid, hcid, hrid, v, hv, hval⟩
      rw [validatorsByColumnId_eq sd allData c hc hnodup] at hv
      rcases List.mem_map.1 hv with ⟨vd, hvd, hvdeq⟩
      exact ⟨c, hc, p.1, p.2, hpget, hdata, helig, hsid, hcid, hrid,
        vd, hvd, by rw [hvdeq]; exact hval⟩
    · rintro ⟨c, hc, i, row, hget, hdata, helig, hsid, hcid, hrid,
        vd, hvd, hval⟩
      have hp : (i, row) ∈ sheetData.rows.enum := by
        rw [List.mem_enum_iff_getElem?]
        rw [List.get?_eq_getElem?] at hget
        exact hget
      obtain ⟨colOut, hF⟩ := exceptMapM_ok_forall hcols c hc
      refine ⟨c, hc, colOut, hF, ?_⟩
      rcases exceptMapM_flatten_ok.1 hF with ⟨perRow, hrows, hcolOut⟩
      subst hcolOut
      obtain ⟨rowOut, hG⟩ := exceptMapM_ok_forall hrows (i, row) hp
      refine (exceptMapM_flatten_mem hrows e).2 ⟨(i, row), hp, rowOut, hG, ?_⟩
      refine (rowColumnErrors_mem sd.id (validatorsByColumnId sd allData) c
        i row rowOut hG e).2 ⟨hdata, helig, hsid, hcid, hrid, ?_⟩
      rw [validatorsByColumnId_eq sd allData c hc hnodup]
      exact ⟨buildValidatorFromDefinition vd,
        List.mem_map_of_mem buildValidatorFromDefinition hvd, hval⟩
  · rfl

theorem validateSheet_spec_witness :
    (ageSheet.columns.map (fun c => c.id)).Nodup ∧
    (∃ c ∈ ageSheet.columns, ∃ (i : Nat) (row : SheetRow),
      ageData.rows.get? i = some row ∧
      hasData row = true ∧
      (rowHas row c.id = true ∨ fieldIsRequired c true = true) ∧
      ("s" : String) = ageSheet.id ∧ ("age" : String) = c.id ∧
      (0 : Nat) = i ∧
      ∃ vd ∈ effectiveValidatorDefinitions c [ageData],
        (buildValidatorFromDefinition vd).isValid (rowGet row c.id) row =
          Except.ok (some "required")) :=
  ⟨by decide,
   (validateSheet_spec.1 ageSheet ageData [ageData]
      [{ sheetId := "s", columnId := "age", rowIndex := 0,
         message := "required" }]
      (by decide) rfl
      { sheetId := "s", columnId := "age", rowIndex := 0,
        message := "required" }).1 (by simp)⟩

/-- Inputs of the C8 witness: one sheet with one transformed column
and two rows. -/
def c8Sheet : SheetDefinition :=
  { id := "s", columns := [
      { id := "a", type := ColumnType.text,
        transformers := some [fun _ => CellValue.str "T"] }] }

def c8State : SheetState :=
  { sheetId := "s",
    rows := [[("a", CellValue.str "x")], [("a", CellValue.str "y")]] }

theorem applyTransformationsToSingleRow_frame_witness :
    (∀ sd ∈ [c8Sheet], (sd.columns.map (fun c => c.id)).Nodup) ∧
    (applyTransformationsToSingleRow [c8Sheet] [c8State] "s" 0).length =
      ([c8State] : List SheetState).length :=
  ⟨by simp [c8Sheet],
   (applyTransformationsToSingleRow_frame [c8Sheet] [c8State] "s" 0
     (by simp [c8Sheet])).1⟩

/-! ## C4 — getState: reducer fold, validation choice, failure fallback -/

/-- C4: `getState` folds the pending actions through the reducer from
the base state and then validates: incrementally exactly when the
folded state's dirty-row map exists and has some non-empty per-sheet
set, fully otherwise; when the chosen run rejects, the returned
state's errors are the folded state's pre-existing error list. -/
theorem getState_spec (red : ImporterState → ImporterAction → ImporterState)
    (sheets : List SheetDefinition) (initialState : ImporterState)
    (buildSteps : List ImporterAction) :
    (∀ d : DirtyRows,
      (buildSteps.foldl red initialState).dirtyRows = some d →
      (∃ p ∈ d, p.2 ≠ []) →
      getState red sheets initialState buildSteps =
        { buildSteps.foldl red initialState with
          validationErrors :=
            match applyValidationsToSpecificRows sheets
                (buildSteps.foldl red initialState).sheetData
                (buildSteps.foldl red initialState).validationErrors d with
            | Except.ok errs => errs
            | Except.error _ =>
              (buildSteps.foldl red initialState).validationErrors }) ∧
    (((buildSteps.foldl red initialState).dirtyRows = none ∨
      (∀ d, (buildSteps.foldl red initialState).dirtyRows = some d →
        ∀ p ∈ d, p.2 = [])) →
      getState red sheets initialState buildSteps =
        { buildSteps.foldl red initialState with
          validationErrors :=
            match applyValidations sheets
                (buildSteps.foldl red initialState).sheetData with
            | Except.ok errs => errs
            | Except.error _ =>
              (buildSteps.foldl red initialState).validationErrors }) ∧
    (∀ d : DirtyRows,
      (buildSteps.foldl red initialState).dirtyRows = some d →
      (∃ p ∈ d, p.2 ≠ []) →
      applyValidationsToSpecificRows sheets
        (buildSteps.foldl red initialState).sheetData
        (buildSteps.foldl red initialState).validationErrors d =
        Except.error () →
      (getState red sheets initialState buildSteps).validationErrors =
        (buildSteps.foldl red initialState).validationErrors) ∧
    (((buildSteps.foldl red initialState).dirtyRows = none ∨
      (∀ d, (buildSteps.foldl red initialState).dirtyRows = some d →
        ∀ p ∈ d, p.2 = [])) →
      applyValidations sheets
        (buildSteps.foldl red initialState).sheetData = Except.error () →
      (getState red sheets initialState buildSteps).validationErrors =
        (buildSteps.foldl red initialState).validationErrors) := by
  have hincr : ∀ d : DirtyRows,
      (buildSteps.foldl red initialState).dirtyRows = some d →
      (∃ p ∈ d, p.2 ≠ []) →
      getState red sheets initialState buildSteps =
        { buildSteps.foldl red initialState with
          validationErrors :=
            match applyValidationsToSpecificRows sheets
                (buildSteps.foldl red initialState).sheetData
                (buildSteps.foldl red initialState).validationErrors d with
            | Except.ok errs => errs
            | Except.error _ =>
              (buildSteps.foldl red initialState).validationErrors } := by
    intro d hd hne
    have hany : d.any (fun p => !p.2.isEmpty) = true := by
      rcases hne with ⟨p, hp, hpe⟩
      refine List.any_eq_true.2 ⟨p, hp, ?_⟩
      cases hpl : p.2 with
      | nil => exact absurd hpl hpe
      | cons x xs => rfl
    simp only [getState]
    rw [hd]
    simp [hany]
  have hfull :
      ((buildSteps.foldl red initialState).dirtyRows = none ∨
        (∀ d, (buildSteps.foldl red initialState).dirtyRows = some d →
          ∀ p ∈ d, p.2 = [])) →
      getState red sheets initialState buildSteps =
        { buildSteps.foldl red initialState with
          validationErrors :=
            match applyValidations sheets
                (buildSteps.foldl red initialState).sheetData with
            | Except.ok errs => errs
            | Except.error _ =>
              (buildSteps.foldl red initialState).validationErrors } := by
    intro hcase
    cases hd : (buildSteps.foldl red initialState).dirtyRows with
    | none =>
      simp only [getState]
      rw [hd]
      rfl
    | some d =>
      have hall : ∀ p ∈ d, p.2 = [] := by
        rcases hcase with hnone | hempty
        · rw [hd] at hnone
          cases hnone
        · exact hempty d hd
      have hany : d.any (fun p => !p.2.isEmpty) = false := by
        rw [List.any_eq_false]
        intro p hp
        rw [hall p hp]
        decide
      simp only [getState]
      rw [hd]
      simp [hany]
  refine ⟨hincr, hfull, ?_, ?_⟩
  · intro d hd hne herr
    rw [hincr d hd hne]
    show (match applyValidationsToSpecificRows sheets _ _ d with
      | Except.ok errs => errs
      | Except.error _ => _) = _
    rw [herr]
  · intro hcase herr
    rw [hfull hcase]
    show (match applyValidations sheets _ with
      | Except.ok errs => errs
      | Except.error _ => _) = _
    rw [herr]

/-- Inputs of the C4 witness: a sheet whose only validator rejects, a
folded state with a non-empty dirty set, so the incremental run fails
and the pre-existing error list is kept. -/
def failSheet : SheetDefinition :=
  { id := "f", columns := [
      { id := "a", type := ColumnType.text,
        validators := some
          [ValidatorDefinition.custom (fun _ _ => Except.error ())] }] }

def keepError : ImporterValidationError :=
  { sheetId := "f", columnId := "a", rowIndex := 0, message := "keep" }

def failState : ImporterState :=
  { sheetDefinitions := [failSheet], currentSheetId := "f",
    mode := ImporterMode.preview,
    validationErrors := [keepError],
    sheetData := [{ sheetId := "f", rows := [[("a", CellValue.str "v")]] }],
    importProgress := 0, validationInProgress := false,
    validationRunId := none, dirtyRows := some [("f", [0])] }

theorem getState_spec_witness :
    failState.dirtyRows = some [("f", [0])] ∧
    applyValidationsToSpecificRows [failSheet] failState.sheetData
      failState.validationErrors [("f", [0])] = Except.error () ∧
    (getState (fun s _ => s) [failSheet] failState []).validationErrors =
      failState.validationErrors :=
  ⟨rfl, rfl,
   (getState_spec (fun s _ => s) [failSheet] failState []).2.2.1
     [("f", [0])] rfl ⟨("f", [0]), by simp, by simp⟩ rfl⟩

/-! ## C3 — debounced, race-guarded validation dispatch -/

/-- Recognizer for VALIDATION_COMPLETED actions. -/
def isCompletedAction : ImporterAction → Bool
  | ImporterAction.validationCompleted _ _ => true
  | _ => false

theorem reducer_nonvalidation
    (other : ImporterState → ImporterAction → ImporterState)
    (s : ImporterState) (a : ImporterAction)
    (ha : isValidationAction a = false) :
    reducer other s a = other s a := by
  cases a <;> first | rfl | exact Bool.noConfusion ha

theorem isCompletedAction_eq_false (a : ImporterAction)
    (h : isValidationAction a = false) : isCompletedAction a = false := by
  cases a <;> first | rfl | exact Bool.noConfusion h

theorem foldl_nonvalidation_runId
    (other : ImporterState → ImporterAction → ImporterState)
    (hother : ∀ s a, (other s a).validationRunId = s.validationRunId) :
    ∀ (acts : List ImporterAction) (s : ImporterState),
      (∀ a ∈ acts, isValidationAction a = false) →
      (acts.foldl (reducer other) s).validationRunId = s.validationRunId := by
  intro acts
  induction acts with
  | nil =>
    intro s _
    rfl
  | cons a rest ih =>
    intro s h
    rw [List.foldl_cons, ih _ (fun b hb => h b (by simp [hb]))]
    rw [reducer_nonvalidation other s a (h a (by simp))]
    exact hother s a

theorem sessionTrace_cons (c : DispatchCall) (rest : List DispatchCall) :
    sessionTrace (c :: rest) =
      dispatchChangeTrace c.steps c.runId ++ sessionTrace rest := by
  unfold sessionTrace
  rw [List.flatMap_cons]

theorem dispatchChangeTrace_mandated (c : DispatchCall)
    (h : c.steps.any requiresValidation = true) :
    dispatchChangeTrace c.steps c.runId =
      ImporterAction.validationStarted c.runId :: c.steps := by
  unfold dispatchChangeTrace
  rw [h]
  rfl

theorem dispatchChangeTimer_mandated (c : DispatchCall) (t : Option String)
    (h : c.steps.any requiresValidation = true) :
    dispatchChangeTimer c.steps c.runId t = some c.runId := by
  unfold dispatchChangeTimer
  rw [h]
  rfl

theorem sessionTimer_last :
    ∀ (calls : List DispatchCall) (c : DispatchCall),
      calls.getLast? = some c →
      (∀ c' ∈ calls, c'.steps.any requiresValidation = true) →
      ∀ t, sessionTimer calls t = some c.runId := by
  intro calls
  induction calls with
  | nil =>
    intro c hc
    cases hc
  | cons c0 rest ih =>
    intro c hc hval t
    cases rest with
    | nil =>
      have hc0 : c0 = c := by
        have : some c0 = some c := hc
        exact Option.some.inj this
      subst hc0
      show dispatchChangeTimer c0.steps c0.runId t = some c0.runId
      exact dispatchChangeTimer_mandated c0 t (hval c0 (by simp))
    | cons c1 rs =>
      rw [List.getLast?_cons_cons] at hc
      show sessionTimer (c1 :: rs) _ = some c.runId
      exact ih c hc (fun c' hc' => hval c' (by simp [hc'])) _

theorem sessionFold_runId
    (other : ImporterState → ImporterAction → ImporterState)
    (hother : ∀ s a, (other s a).validationRunId = s.validationRunId) :
    ∀ (calls : List DispatchCall) (c : DispatchCall),
      calls.getLast? = some c →
      (∀ c' ∈ calls, c'.steps.any requiresValidation = true) →
      (∀ c' ∈ calls, ∀ a ∈ c'.steps, isValidationAction a = false) →
      ∀ s0 : ImporterState,
        ((sessionTrace calls).foldl (reducer other) s0).validationRunId =
          some c.runId := by
  intro calls
  induction calls with
  | nil =>
    intro c hc
    cases hc
  | cons c0 rest ih =>
    intro c hc hval hsteps s0
    rw [sessionTrace_cons, List.foldl_append]
    cases rest with
    | nil =>
      have hc0 : c0 = c := by
        have : some c0 = some c := hc
        exact Option.some.inj this
      subst hc0
      show ((sessionTrace []).foldl (reducer other) _).validationRunId =
        some c0.runId
      show (List.foldl (reducer other) _ []).validationRunId = some c0.runId
      rw [List.foldl_nil]
      rw [dispatchChangeTrace_mandated c0 (hval c0 (by simp)),
        List.foldl_cons]
      rw [foldl_nonvalidation_runId other hother c0.steps _
        (fun a ha => hsteps c0 (by simp) a ha)]
      rfl
    | cons c1 rs =>
      rw [List.getLast?_cons_cons] at hc
      exact ih c hc (fun c' hc' => hval c' (by simp [hc']))
        (fun c' hc' => hsteps c' (by simp [hc'])) _

theorem sessionTrace_no_completed (calls : List DispatchCall)
    (hsteps : ∀ c ∈ calls, ∀ a ∈ c.steps, isValidationAction a = false) :
    ∀ a ∈ sessionTrace calls, isCompletedAction a = false := by
  intro a ha
  rcases List.mem_flatMap.1 ha with ⟨c, hc, hmem⟩
  unfold dispatchChangeTrace at hmem
  by_cases hm : c.steps.any requiresValidation = true
  · rw [if_pos hm] at hmem
    rcases List.mem_cons.1 hmem with rfl | hmem
    · rfl
    · exact isCompletedAction_eq_false a (hsteps c hc a hmem)
  · rw [if_neg hm] at hmem
    exact isCompletedAction_eq_false a (hsteps c hc a hmem)

/-- C3: inside one debounce window, each validation-mandating
`dispatchChange` emits VALIDATION_STARTED with its fresh runId before
its batched actions and replaces any previously scheduled timer with
its own; the surviving timer is the last call's, the window's whole
trace holds exactly one VALIDATION_COMPLETED — carrying the last
call's runId — and folding the trace through the reducer commits
exactly that completion (errors applied, in-progress cleared), while a
completion carrying any other runId leaves the final state
unchanged. -/
theorem dispatchChange_debounce_spec
    (calls : List DispatchCall) (hne : calls ≠ [])
    (hval : ∀ c ∈ calls, c.steps.any requiresValidation = true)
    (hsteps : ∀ c ∈ calls, ∀ a ∈ c.steps, isValidationAction a = false)
    (other : ImporterState → ImporterAction → ImporterState)
    (hother : ∀ s a, (other s a).validationRunId = s.validationRunId)
    (computeErrors : String → List ImporterValidationError)
    (s0 : ImporterState) :
    (∀ c ∈ calls, dispatchChangeTrace c.steps c.runId =
      ImporterAction.validationStarted c.runId :: c.steps) ∧
    (∀ c ∈ calls, ∀ t, dispatchChangeTimer c.steps c.runId t =
      some c.runId) ∧
    sessionTimer calls none = some (calls.getLast hne).runId ∧
    (windowTrace calls computeErrors).filter isCompletedAction =
      [ImporterAction.validationCompleted
        (computeErrors (calls.getLast hne).runId)
        (calls.getLast hne).runId] ∧
    ((windowTrace calls computeErrors).foldl (reducer other)
        s0).validationErrors = computeErrors (calls.getLast hne).runId ∧
    ((windowTrace calls computeErrors).foldl (reducer other)
        s0).validationRunId = some (calls.getLast hne).runId ∧
    ((windowTrace calls computeErrors).foldl (reducer other)
        s0).validationInProgress = false ∧
    (∀ (errs : List ImporterValidationError) (r : String),
      r ≠ (calls.getLast hne).runId →
      reducer other
        ((windowTrace calls computeErrors).foldl (reducer other) s0)
        (ImporterAction.validationCompleted errs r) =
      (windowTrace calls computeErrors).foldl (reducer other) s0) := by
  have hlast : calls.getLast? = some (calls.getLast hne) :=
    List.getLast?_eq_getLast calls hne
  have htimer : sessionTimer calls none = some (calls.getLast hne).runId :=
    sessionTimer_last calls (calls.getLast hne) hlast hval none
  have hwindow : windowTrace calls computeErrors = sessionTrace calls ++
      [ImporterAction.validationCompleted
        (computeErrors (calls.getLast hne).runId)
        (calls.getLast hne).runId] := by
    unfold windowTrace
    rw [htimer]
    rfl
  have hrunid : ((sessionTrace calls).foldl (reducer other)
      s0).validationRunId = some (calls.getLast hne).runId :=
    sessionFold_runId other hother calls (calls.getLast hne) hlast hval
      hsteps s0
  have hfold : (windowTrace calls computeErrors).foldl (reducer other) s0 =
      reducer other ((sessionTrace calls).foldl (reducer other) s0)
        (ImporterAction.validationCompleted
          (computeErrors (calls.getLast hne).runId)
          (calls.getLast hne).runId) := by
    rw [hwindow, List.foldl_append]
    rfl
  have hcommit : reducer other
      ((sessionTrace calls).foldl (reducer other) s0)
      (ImporterAction.validationCompleted
        (computeErrors (calls.getLast hne).runId)
        (calls.getLast hne).runId) =
      { (sessionTrace calls).foldl (reducer other) s0 with
        validationErrors := computeErrors (calls.getLast hne).runId,
        validationInProgress := false,
        validationRunId := some (calls.getLast hne).runId } := by
    show (if ((sessionTrace calls).foldl (reducer other)
        s0).validationRunId == some (calls.getLast hne).runId then _
      else _) = _
    rw [hrunid, beq_self_eq_true]
    rfl
  refine ⟨?_, ?_, htimer, ?_, ?_, ?_, ?_, ?_⟩
  · intro c hc
    exact dispatchChangeTrace_mandated c (hval c hc)
  · intro c hc t
    exact dispatchChangeTimer_mandated c t (hval c hc)
  · rw [hwindow, List.filter_append]
    rw [List.filter_eq_nil_iff.2 (fun a ha => by
      rw [sessionTrace_no_completed calls hsteps a ha]
      decide)]
    rfl
  · rw [hfold, hcommit]
  · rw [hfold, hcommit]
  · rw [hfold, hcommit]
  · intro errs r hr
    rw [hfold, hcommit]
    have hbeq : ((some (calls.getLast hne).runId : Option String) == some r)
        = false := by
      apply beq_eq_false_iff_ne.2
      intro he
      exact hr (Option.some.inj he).symm
    show (if ((some (calls.getLast hne).runId : Option String) == some r) =
        true then _ else _) = _
    rw [hbeq]
    rfl

/-- Two dispatch calls of the C3 witness, both carrying a cell edit
(Scenario D with two rapid edits inside one debounce window). -/
def c3CallA : DispatchCall :=
  { steps := [ImporterAction.cellChanged "s" 0 []], runId := "r1" }

def c3CallB : DispatchCall :=
  { steps := [ImporterAction.cellChanged "s" 1 []], runId := "r2" }

def c3State : ImporterState :=
  { sheetDefinitions := [], currentSheetId := "s",
    mode := ImporterMode.preview, validationErrors := [], sheetData := [],
    importProgress := 0, validationInProgress := false,
    validationRunId := none, dirtyRows := none }

theorem dispatchChange_debounce_spec_witness :
    (∀ c ∈ [c3CallA, c3CallB], c.steps.any requiresValidation = true) ∧
    sessionTimer [c3CallA, c3CallB] none = some "r2" ∧
    ((windowTrace [c3CallA, c3CallB] (fun _ => [])).foldl
        (reducer (fun s _ => s)) c3State).validationRunId = some "r2" :=
  ⟨by decide,
   (dispatchChange_debounce_spec [c3CallA, c3CallB] (by simp) (by decide)
     (by decide) (fun s _ => s) (fun _ _ => rfl) (fun _ => [])
     c3State).2.2.1,
   (dispatchChange_debounce_spec [c3CallA, c3CallB] (by simp) (by decide)
     (by decide) (fun s _ => s) (fun _ _ => rfl) (fun _ => [])
     c3State).2.2.2.2.2.1⟩

end HelloCSV
